import Mathlib

/-!
# ComfyUI-Manager node-pack lifecycle engine: a shallow embedding

This file embeds the core of `comfyui_manager/glob/manager_core.py`
(`UnifiedManager` and its helpers) and `comfyui_manager/common/node_package.py`
(`InstalledNodePackage.from_fullpath`) as executable Lean definitions, and
proves / refutes the frozen specification claims about the engine.

The filesystem (the `custom_nodes` root and its `.disabled` subtree) is
modelled as an association list from paths to directory contents; the engine
operations are functions from filesystem states to result/state pairs, with
`Option` modelling an uncaught Python exception (an operation that does not
complete).  External collaborators that are not part of this repository's
sources (the registry client `cnr_utils`, the git wrapper `git_utils`, the
downloader) are modelled from the specification's contracts as an explicit
environment of oracle functions.
-/

namespace CM

/-!
### Kernel-computable string primitives

The built-in `String` functions are backed by external implementations and
do not reduce inside the kernel, so the embedding re-implements the handful
of primitives it needs over `String.data` character lists (same semantics
as the Python string operations being modelled). -/

/-- Does `pat` occur as a contiguous infix of `l`? -/
def listHasInfix (pat : List Char) : List Char → Bool
  | [] => pat.isEmpty
  | c :: rest => pat.isPrefixOf (c :: rest) || listHasInfix pat rest

/-- Substring test: Python's `pat in s` (for a nonempty `pat`). -/
def hasSub (s pat : String) : Bool := listHasInfix pat.data s.data

/-- Left-to-right non-overlapping split on a nonempty pattern, Python's
`s.split(pat)`.  Structural recursion on a fuel bounded by the list length
(each step consumes at least one character), so that the function reduces
inside the kernel. -/
def splitGo (pat : List Char) : Nat → List Char → List Char → List (List Char)
  | _, [], acc => [acc.reverse]
  | 0, _ :: _, acc => [acc.reverse]
  | fuel + 1, c :: rest, acc =>
    if pat.isPrefixOf (c :: rest) then
      acc.reverse :: splitGo pat fuel (List.drop (pat.length - 1) rest) []
    else splitGo pat fuel rest (c :: acc)

def sSplitOn (s pat : String) : List String :=
  if pat.data.isEmpty then [s]
  else (splitGo pat.data s.data.length s.data []).map (fun l => ⟨l⟩)

/-- Left-to-right non-overlapping replacement, Python's
`s.replace(pat, tgt)`; fuel as in `splitGo`. -/
def replaceGo (pat tgt : List Char) : Nat → List Char → List Char
  | _, [] => []
  | 0, l => l
  | fuel + 1, c :: rest =>
    if pat.isPrefixOf (c :: rest) then
      tgt ++ replaceGo pat tgt fuel (List.drop (pat.length - 1) rest)
    else c :: replaceGo pat tgt fuel rest

def sReplace (s pat tgt : String) : String :=
  if pat.data.isEmpty then s
  else ⟨replaceGo pat.data tgt.data s.data.length s.data⟩

def sEndsWith (s pat : String) : Bool := pat.data.isSuffixOf s.data

def sStartsWith (s pat : String) : Bool := pat.data.isPrefixOf s.data

def sDropRight (s : String) (n : Nat) : String :=
  ⟨s.data.take (s.data.length - n)⟩

def sDrop (s : String) (n : Nat) : String := ⟨s.data.drop n⟩

/-- ASCII lower-casing of one character. -/
def chLower (c : Char) : Char :=
  if 65 ≤ c.toNat ∧ c.toNat ≤ 90 then Char.ofNat (c.toNat + 32) else c

def sToLower (s : String) : String := ⟨s.data.map chLower⟩

/-- Python's whitespace set for `str.strip()`. -/
def isWs (c : Char) : Bool := c.toNat ∈ [32, 9, 10, 13, 11, 12]

def sTrim (s : String) : String :=
  ⟨((s.data.dropWhile isWs).reverse.dropWhile isWs).reverse⟩

/-- Parse a nonempty all-digit string as a numeral. -/
def sToNat? (s : String) : Option Nat :=
  if s.data ≠ [] ∧ s.data.all (fun c => c.isDigit) then
    some (s.data.foldl (fun n c => n * 10 + (c.toNat - 48)) 0)
  else none

def sIntercalate (sep : String) (l : List String) : String :=
  ⟨(l.map (·.data)).intersperse sep.data |>.flatten⟩

/-- `os.path.basename` on a `/`-separated string (paths and compact URLs). -/
def pathBase (s : String) : String := ((sSplitOn s "/").getLastD s)

/-- Modelled from the spec: registry-id normalization for case-insensitive
lookup; `cnr_utils.normalize_package_name` is described in the engine's
comments as "normalize (lowercase, strip whitespace)". -/
def normalize_package_name (s : String) : String := sToLower (sTrim s)

/-- Modelled from the spec: `compactUrl(url) -> "owner/repo"`; strips a
trailing slash and `.git` suffix and keeps the last two path components.
Already-compact `owner/repo` strings are fixed points. -/
def compact_url (u : String) : String :=
  let u1 := if sEndsWith u "/" then sDropRight u 1 else u
  let u2 := if sEndsWith u1 ".git" then sDropRight u1 4 else u1
  let u3 := sReplace u2 ":" "/"
  let parts := (sSplitOn u3 "/").filter (fun t => t ≠ "")
  match parts.reverse with
  | repo :: owner :: _ => owner ++ "/" ++ repo
  | _ => u2

/-- Modelled from the spec: semantic-version comparison is numeric
field-by-field; a field that is not a numeral counts as 0, missing
trailing fields count as 0 (`manager_util.StrictVersion`). -/
def parseVer (s : String) : List Nat :=
  (sSplitOn s ".").map (fun t => (sToNat? t).getD 0)

/-- Strict `<` on parsed version fields, missing fields read as 0. -/
def verFieldsLt : List Nat → List Nat → Bool
  | [], [] => false
  | [], y :: ys => if 0 < y then true else verFieldsLt [] ys
  | _ :: _, [] => false
  | x :: xs, y :: ys => if x < y then true else if x = y then verFieldsLt xs ys else false

/-- All version fields zero (a padding tail compares equal to nothing). -/
def verFieldsZero : List Nat → Bool
  | [] => true
  | y :: ys => y = 0 && verFieldsZero ys

/-- Equality on parsed version fields, missing fields read as 0. -/
def verFieldsEq : List Nat → List Nat → Bool
  | [], ys => verFieldsZero ys
  | x :: xs, [] => x = 0 && verFieldsEq xs []
  | x :: xs, y :: ys => x = y && verFieldsEq xs ys

/-- `StrictVersion(a) < StrictVersion(b)`. -/
def strictVersionLt (a b : String) : Bool := verFieldsLt (parseVer a) (parseVer b)

/-- `StrictVersion(a) == StrictVersion(b)`. -/
def strictVersionEq (a b : String) : Bool := verFieldsEq (parseVer a) (parseVer b)

/-! ## Directory contents and the on-disk state -/

/-- Modelled from the spec: the release metadata file (`pyproject.toml`):
`readReleaseMetadata(path) -> {id, version, declaredOriginalName,
repositoryUrl?}`. -/
structure CnrMeta where
  id : String
  version : String
  name : String
  url : Option String := none
deriving DecidableEq, Repr

/-- One directory under the pack root or its `.disabled` subtree.
`git` is the remote URL when the directory is a version-control working
tree; `meta` is the metadata file when present; `tracking` is the manifest
file (`.tracking`) with its content when present; `files` is the set of
other file paths in the directory (content identity). -/
structure PackDir where
  git : Option String := none
  meta : Option CnrMeta := none
  tracking : Option (List String) := none
  files : List String := []
deriving DecidableEq, Repr

/-- Modelled from the spec: the Release markers are "a manifest file listing
every path the current content extraction produced plus a metadata file
carrying the declared name/version" (§3); `cnr_utils.read_cnr_info` reports
the metadata only when the directory carries both markers, and `NotFound`
otherwise. -/
def read_cnr_info (d : PackDir) : Option CnrMeta :=
  match d.tracking, d.meta with
  | some _, some m => some m
  | _, _ => none

/-- Location of a directory: the active root, or the `.disabled` subtree. -/
inductive Loc
  | act
  | dis
deriving DecidableEq, Repr

/-- A path is a location together with the directory's own name. -/
structure Path where
  loc : Loc
  name : String
deriving DecidableEq, Repr

/-- The filesystem: a finite list of directories with their contents.
Well-formed states have pairwise distinct paths; list order models
`os.listdir` order. -/
abbrev FS := List (Path × PackDir)

def fsGet (fs : FS) (p : Path) : Option PackDir :=
  (fs.find? (fun e => e.1 = p)).map (·.2)

def fsRemove (fs : FS) (p : Path) : FS :=
  fs.filter (fun e => ¬ e.1 = p)

def fsAdd (fs : FS) (p : Path) (d : PackDir) : FS := fs ++ [(p, d)]

/-- Create-or-overwrite a directory's contents in place (archive extraction
over an existing directory). -/
def fsSet (fs : FS) (p : Path) (d : PackDir) : FS :=
  if (fsGet fs p).isSome then
    fs.map (fun e => if e.1 = p then (p, d) else e)
  else fsAdd fs p d

/-- `shutil.move`.  Returns `none` when the source is missing (the Python
call raises, aborting the operation).  When the destination already exists
as a directory, `shutil.move` moves the source *inside* it; the nested
directory is invisible to the top-level scanner, so the source entry simply
disappears from the modelled tree. -/
def fsMove (fs : FS) (src dst : Path) : Option FS :=
  match fsGet fs src with
  | none => none
  | some d =>
    let fs1 := fsRemove fs src
    if (fsGet fs1 dst).isSome then some fs1
    else some (fsAdd fs1 dst d)

/-! ## Classification (`node_package.py` and `resolve_from_path`) -/

/-- `InstalledNodePackage`: one classified on-disk pack instance. -/
structure Pack where
  id : String
  fullpath : Path
  disabled : Bool
  version : String
  repo_url : Option String := none
deriving DecidableEq, Repr

def Pack.is_unknown (p : Pack) : Bool := p.version = "unknown"

def Pack.is_nightly (p : Pack) : Bool := p.version = "nightly"

def Pack.is_from_cnr (p : Pack) : Bool := ¬ p.is_unknown && ¬ p.is_nightly

def Pack.is_enabled (p : Pack) : Bool := ¬ p.disabled

def Pack.is_disabled (p : Pack) : Bool := p.disabled

/-- `UnifiedManager.resolve_from_path`: a git working tree classifies as
nightly under its compact remote URL; otherwise the release markers are
consulted; otherwise `None`.  Returns `(id, version, url-from-info)`; the
release branch of the source returns a dict without a `url` key, modelled
here as `none`. -/
def resolve_from_path (d : PackDir) : Option (String × String × Option String) :=
  match d.git with
  | some url => some (compact_url url, "nightly", none)
  | none =>
    match read_cnr_info d with
    | some m => some (m.id, m.version, none)
    | none => none

/-- `InstalledNodePackage.from_fullpath`. -/
def from_fullpath (p : Path) (d : PackDir) : Pack :=
  let m := p.name
  let idDis : String × Bool :=
    if sEndsWith m ".disabled" then (sDropRight m 9, true)
    else if p.loc = Loc.dis then (m, true)
    else (m, false)
  let disabled := idDis.2
  -- for directories under `.disabled` named `<name>@<tag>`, the directory
  -- name supplies a fallback id and overrides the version (tag `_` → `.`)
  let dirInfo : Option (String × String) :=
    if disabled ∧ p.loc = Loc.dis then
      match sSplitOn m "@" with
      | [a, b] => some (a, sReplace b "_" ".")
      | _ => none
    else none
  match resolve_from_path d with
  | none =>
    { id := (dirInfo.map (·.1)).getD idDis.1
      fullpath := p
      disabled := disabled
      version := (dirInfo.map (·.2)).getD "unknown"
      repo_url := none }
  | some (iid, iver, iurl) =>
    let version := (dirInfo.map (·.2)).getD iver
    let repo_url :=
      if version = "nightly" then d.git
      else match iurl with
        | some u => if u ≠ "" then some u else none
        | none => none
    { id := iid, fullpath := p, disabled := disabled, version := version,
      repo_url := repo_url }

/-! ## The index (`UnifiedManager.reload`) -/

/-- `installed_node_packages`: id → instances, in scan/insertion order. -/
abbrev ById := List (String × List Pack)

def addPack (m : ById) (k : String) (pk : Pack) : ById :=
  match m with
  | [] => [(k, [pk])]
  | (k', ps) :: rest =>
    if k' = k then (k', ps ++ [pk]) :: rest else (k', ps) :: addPack rest k pk

def lookupPacks (m : ById) (k : String) : List Pack :=
  ((m.find? (fun e => e.1 = k)).map (·.2)).getD []

def idxKeys (m : ById) : List String := m.map (·.1)

structure Index where
  byId : ById
  repoMap : List (String × Pack)
deriving Repr

/-- Scan order of `reload`: the active root first (skipping `__pycache__`
and the `.disabled` entry itself), then the `.disabled` subtree. -/
def scanEntries (fs : FS) : List (Path × PackDir) :=
  fs.filter (fun e => e.1.loc = Loc.act ∧ e.1.name ≠ "__pycache__") ++
    fs.filter (fun e => e.1.loc = Loc.dis)

/-- All classified instances, in scan order. -/
def instancesOf (fs : FS) : List Pack :=
  (scanEntries fs).map (fun e => from_fullpath e.1 e.2)

def setAssoc (m : List (String × Pack)) (k : String) (pk : Pack) :
    List (String × Pack) :=
  match m with
  | [] => [(k, pk)]
  | (k', v) :: rest =>
    if k' = k then (k, pk) :: rest else (k', v) :: setAssoc rest k pk

/-- Index one classified pack: under its id, additionally under its
normalized id for registry releases, and in the repo-URL cross-reference
map. -/
def indexPack (idx : Index) (pk : Pack) : Index :=
  { byId :=
      if pk.is_from_cnr ∧ normalize_package_name pk.id ≠ pk.id then
        addPack (addPack idx.byId pk.id pk) (normalize_package_name pk.id) pk
      else addPack idx.byId pk.id pk
    repoMap :=
      match pk.repo_url with
      | some u => setAssoc idx.repoMap (compact_url u) pk
      | none => idx.repoMap }

/-- `UnifiedManager.reload`: full rescan into a fresh index. -/
def buildIndex (fs : FS) : Index :=
  (instancesOf fs).foldl indexPack ⟨[], []⟩

/-- The manager's in-memory state: the disk plus the (possibly stale)
index last built from it. -/
structure Mgr where
  fs : FS
  idx : Index

def mkMgr (fs : FS) : Mgr := { fs := fs, idx := buildIndex fs }

def Mgr.reload (m : Mgr) : Mgr := mkMgr m.fs

/-! ## External collaborators (modelled from the spec, §6) -/

/-- Registry lookup result (`cnr_utils.get_nodepack`). -/
structure NodepackInfo where
  repository : Option String := none
  latest_version : Option String := none
deriving DecidableEq, Repr

/-- `cnr_utils.install_node` result: the concrete version selected by the
registry, whether a download URL is available, and the archive's extracted
content (`none` models an empty/unreadable archive). -/
structure NodeVersionInfo where
  version : String
  downloadOk : Bool := true
  archive : Option PackDir := none
deriving DecidableEq, Repr

/-- Modelled from the spec: the consumed collaborator contracts (§6) —
registry client, VCS wrapper (clone), archive fetch+extract, dependency
installer — as an oracle environment.  `postinstallOk` is keyed by the
directory name the install script runs in. -/
structure Env where
  nodepack : String → Option NodepackInfo
  nodepackByUrl : String → Option String
  installNode : String → Option String → Option NodeVersionInfo
  cloneOk : String → Bool
  cloneDir : String → PackDir
  postinstallOk : String → Bool
  repoUpdate : String → Option Bool
  securityWeak : Bool

/-! ## Lookup and resolution (`UnifiedManager` query methods) -/

/-- `UnifiedManager.is_url_like`. -/
def url_patterns : List String :=
  ["http://", "https://", "git@", "ssh://", ".git", "github.com", "gitlab.com",
   "bitbucket.org"]

def is_url_like (s : String) : Bool :=
  url_patterns.any (fun pat => hasSub (sToLower s) pat)

/-- A pack's repo URL read with Python truthiness (empty string is falsy). -/
def packRepoUrl (pk : Pack) : Option String :=
  match pk.repo_url with
  | some u => if u = "" then none else some u
  | none => none

/-- The repository URL used by `_get_packages_by_name_or_url` to merge in
nightly instances: the first direct hit carrying a repo URL, else the
registry lookup (keyed by the original-cased name recovered from a
`owner/PackageName` index key when one normalizes to `packname`). -/
def mergedLink (env : Env) (idx : Index) (packname : String) : Option String :=
  match (lookupPacks idx.byId packname).findSome? packRepoUrl with
  | some u => some u
  | none =>
    let original := (idxKeys idx.byId).findSome? (fun k =>
      match sSplitOn k "/" with
      | [_, p1] =>
        if normalize_package_name p1 = packname then some p1 else none
      | _ => none)
    let cnr_packname := original.getD packname
    match env.nodepack cnr_packname with
    | some info =>
      match info.repository with
      | some u => if u = "" then none else some u
      | none => none
    | none => none

/-- `UnifiedManager._get_packages_by_name_or_url`. -/
def get_packages_by_name_or_url (env : Env) (idx : Index) (packname : String) :
    List Pack :=
  let packages := lookupPacks idx.byId packname
  if is_url_like packname then packages
  else
    match mergedLink env idx packname with
    | some u => packages ++ lookupPacks idx.byId (compact_url u)
    | none => packages

/-- `UnifiedManager.get_active_pack`: the first enabled instance. -/
def get_active_pack (env : Env) (idx : Index) (packname : String) : Option Pack :=
  (get_packages_by_name_or_url env idx packname).find? (·.is_enabled)

/-- Loop body of `get_inactive_pack`: exact matches return immediately;
otherwise the accumulated highest release, else the last nightly, else the
last unknown is returned. -/
def giLoop (vspec : Option String) :
    List Pack → Option Pack → Option Pack → Option Pack → Option Pack
  | [], latest, nightly, unknown =>
    if vspec = some "latest" then latest
    else
      match latest with
      | some l => some l
      | none =>
        match nightly with
        | some n => some n
        | none => unknown
  | x :: rest, latest, nightly, unknown =>
    if x.is_disabled then
      if x.is_unknown then
        if vspec = some "unknown" then some x
        else giLoop vspec rest latest nightly (some x)
      else if x.is_nightly then
        if vspec = some "nightly" then some x
        else giLoop vspec rest latest (some x) unknown
      else
        if some x.version = vspec then some x
        else
          let latest' :=
            match latest with
            | none => some x
            | some l => if strictVersionLt l.version x.version then some x else some l
          giLoop vspec rest latest' nightly unknown
    else giLoop vspec rest latest nightly unknown

/-- `UnifiedManager.get_inactive_pack`. -/
def get_inactive_pack (env : Env) (idx : Index) (packname : String)
    (vspec : Option String) : Option Pack :=
  giLoop vspec (get_packages_by_name_or_url env idx packname) none none none

inductive GuessMode
  | active
  | inactive
  | world
deriving DecidableEq, Repr

/-- Loop of `resolve_unspecified_version` for `guess_mode='inactive'`:
any enabled instance aborts with `None`; releases accumulate the highest
version, every other instance (nightly or unknown) marks the nightly
fallback. -/
def ruvInactive : List Pack → Option Pack → Option Pack → Option String
  | [], latest, nightly =>
    match latest with
    | some l => some l.version
    | none => if nightly.isSome then some "nightly" else none
  | x :: rest, latest, nightly =>
    if x.is_enabled then none
    else if x.is_from_cnr then
      let latest' :=
        match latest with
        | none => some x
        | some l => if strictVersionLt l.version x.version then some x else some l
      ruvInactive rest latest' nightly
    else ruvInactive rest latest (some x)

/-- Loop of `resolve_unspecified_version` for the global guess mode. -/
def ruvWorld : List Pack → Option Pack → Option Pack → Option String
  | [], latest, nightly =>
    match latest with
    | some l => some l.version
    | none => if nightly.isSome then some "nightly" else none
  | x :: rest, latest, nightly =>
    if x.is_from_cnr then
      let latest' :=
        match latest with
        | none => some x
        | some l => if strictVersionLt l.version x.version then some x else some l
      ruvWorld rest latest' nightly
    else ruvWorld rest latest (some x)

/-- `UnifiedManager.resolve_unspecified_version`. -/
def resolve_unspecified_version (env : Env) (idx : Index) (packname : String)
    (gm : GuessMode) : Option String :=
  if is_url_like packname then some "nightly"
  else
    match gm with
    | GuessMode.active => (get_active_pack env idx packname).map (·.version)
    | GuessMode.inactive =>
      ruvInactive (get_packages_by_name_or_url env idx packname) none none
    | GuessMode.world =>
      ruvWorld (get_packages_by_name_or_url env idx packname) none none

/-- `UnifiedManager.resolve_node_spec`. -/
def resolve_node_spec (env : Env) (idx : Index) (packname : String)
    (gm : GuessMode) : Option (String × Option String × Bool) :=
  match sSplitOn packname "@" with
  | [pn, vs] =>
    if vs = "latest" then
      match env.nodepack pn with
      | some info =>
        match info.latest_version with
        | some lv => some (pn, some lv, true)
        | none => none
      | none => none
    else some (pn, some vs, true)
  | parts =>
    let gm' := if gm = GuessMode.active ∨ gm = GuessMode.inactive then gm
      else GuessMode.world
    let pn := parts.headD packname
    some (pn, resolve_unspecified_version env idx pn gm', decide (parts.length > 1))

/-- Loop of `is_enabled`: decides on the first enabled instance found. -/
def isEnabledLoop (vspec : Option String) : List Pack → Bool
  | [] => false
  | x :: rest =>
    if x.is_enabled then
      match vspec with
      | none => true
      | some v =>
        if v = "nightly" then x.is_nightly
        else if x.is_from_cnr then strictVersionEq x.version v
        else false
    else isEnabledLoop vspec rest

/-- `UnifiedManager.is_enabled`. -/
def is_enabled (env : Env) (idx : Index) (packname : String)
    (vspec : Option String) : Bool :=
  isEnabledLoop vspec (get_packages_by_name_or_url env idx packname)

/-- Loop of `is_disabled` for an explicit version spec: keeps scanning past
non-matching disabled instances. -/
def isDisabledLoop (v : String) : List Pack → Bool
  | [] => false
  | x :: rest =>
    if x.is_disabled then
      if v = "nightly" then
        if x.is_nightly then true else isDisabledLoop v rest
      else if x.is_from_cnr then
        if strictVersionEq x.version v then true else isDisabledLoop v rest
      else isDisabledLoop v rest
    else isDisabledLoop v rest

/-- `UnifiedManager.is_disabled`. -/
def is_disabled (env : Env) (idx : Index) (packname : String)
    (vspec : Option String) : Bool :=
  let packs := get_packages_by_name_or_url env idx packname
  match vspec with
  | none => packs.all (fun x => ¬ x.is_enabled)
  | some v => isDisabledLoop v packs

/-! ## Operation results (`ManagedResult`) -/

/-- `ManagedResult`.  `postinstall` records the outcome of a deferred
post-install callback when one was attached (`with_postinstall`);
`itemCount` counts `result.items`. -/
structure Res where
  action : String
  result : Bool := true
  msg : Option String := none
  target_path : Option Path := none
  target_version : Option String := none
  postinstall : Option Bool := none
  itemCount : Nat := 0
deriving DecidableEq, Repr

/-- `ManagedResult('skip').with_msg(msg)`. -/
def Res.skipMsg (msg : String) : Res := { action := "skip", msg := some msg }

/-- `ManagedResult(action).fail(msg)`. -/
def Res.failWith (action msg : String) : Res :=
  { action := action, result := false, msg := some msg }

/-! ## State-transition operations -/

/-- `UnifiedManager.unified_enable`.  Lookups use the manager's current
(possibly stale) index; the metadata giving the original-cased directory
name is re-read from disk. -/
def unified_enable (env : Env) (m : Mgr) (packname : String)
    (vspec0 : Option String) : Option (Res × Mgr) :=
  let vspec :=
    match vspec0 with
    | none => resolve_unspecified_version env m.idx packname GuessMode.inactive
    | some v => some v
  -- source quirk: the guard after resolution tests `version` — the imported
  -- `packaging.version` module, never `None` — so a failed resolution falls
  -- through to the checks below instead of failing early
  if is_enabled env m.idx packname vspec then some (Res.skipMsg "Already enabled", m)
  else if ¬ is_disabled env m.idx packname vspec then
    some (Res.skipMsg "Not installed", m)
  else
    match get_inactive_pack env m.idx packname vspec with
    | none => some (Res.failWith "enable" "Specified inactive nodepack not exists", m)
    | some inactive =>
      let from_path := inactive.fullpath
      let original_name :=
        match (fsGet m.fs from_path).bind (·.meta) with
        | some mt => sTrim mt.name
        | none => packname
      let to_path : Path := ⟨Loc.act, original_name⟩
      match fsMove m.fs from_path to_path with
      | none => none
      | some fs' =>
        some ({ action := "enable", target_path := some to_path },
              { m with fs := fs' })

/-- `UnifiedManager._get_installed_version` composed with the fallback in
`unified_disable`: the version re-read from the directory's own metadata,
falling back to the index's cached version. -/
def installedVersionAt (fs : FS) (p : Path) (cached : String) : String :=
  match (fsGet fs p).bind read_cnr_info with
  | some info => if info.version = "" then cached else info.version
  | none => cached

/-- The folder name chosen by `unified_disable` for the inactive slot:
the lower-cased directory name for URL-like requests, else the normalized
basename of the pack name. -/
def disFolderName (packname : String) (act : Pack) : String :=
  if is_url_like packname then sToLower act.fullpath.name
  else
    let base_name := if hasSub packname "/" then pathBase packname else packname
    normalize_package_name base_name

/-- The inactive-slot path computed by `unified_disable`:
`.disabled/<folder>@<installed-version with '.' → '_'>`. -/
def disTargetPath (fs : FS) (packname : String) (act : Pack) : Path :=
  ⟨Loc.dis,
    disFolderName packname act ++ "@" ++
      sReplace (installedVersionAt fs act.fullpath act.version) "." "_"⟩

/-- `UnifiedManager.unified_disable`. -/
def unified_disable (env : Env) (m : Mgr) (packname : String) :
    Option (Res × Mgr) :=
  let packages := get_packages_by_name_or_url env m.idx packname
  let matched_active := packages.reverse.find? (·.is_enabled)
  if packages.isEmpty then some (Res.skipMsg "Not installed", m)
  else
    match matched_active with
    | none => some (Res.skipMsg "Already disabled", m)
    | some act =>
      let to_path := disTargetPath m.fs packname act
      -- a pre-existing directory at the inactive slot is removed outright
      let fs1 := if (fsGet m.fs to_path).isSome then fsRemove m.fs to_path else m.fs
      match fsMove fs1 act.fullpath to_path with
      | none => none
      | some fs2 =>
        some ({ action := "disable", itemCount := 1 }, { m with fs := fs2 })

/-- `UnifiedManager.unified_uninstall`: removes every instance found by the
merged lookup (`try_rmtree` catches failures, so removal never raises). -/
def unified_uninstall (env : Env) (m : Mgr) (packname : String) :
    Option (Res × Mgr) :=
  let packages := get_packages_by_name_or_url env m.idx packname
  let fs' := packages.foldl (fun fs pk => fsRemove fs pk.fullpath) m.fs
  if packages.isEmpty then some (Res.skipMsg "Not installed", m)
  else
    some ({ action := "uninstall", itemCount := packages.length },
          { m with fs := fs' })

/-- Shared tail of the installing operations: attach or execute the
post-install step for the content placed at `p`. -/
def finishWithPostinstall (env : Env) (m : Mgr) (base : Res) (p : Path)
    (rp : Bool) : Option (Res × Mgr) :=
  let ok := env.postinstallOk p.name
  if rp then some ({ base with postinstall := some ok }, m)
  else if ¬ ok then
    some ({ base with result := false, msg := some "Failed to execute install script" }, m)
  else some (base, m)

/-- `UnifiedManager.cnr_install`: fresh download of a registry release into
`<root>/<packname>`. -/
def cnr_install (env : Env) (m : Mgr) (packname : String) (vspec : Option String)
    (rp : Bool) : Option (Res × Mgr) :=
  if hasSub (sToLower packname) "comfyui-manager" then
    some (Res.failWith "install-cnr" "ignored", m)
  else
    match env.installNode packname vspec with
    | none => some (Res.failWith "install-cnr" "not available node", m)
    | some ni =>
      if ¬ ni.downloadOk then some (Res.failWith "install-cnr" "not available node", m)
      else
        let install_path : Path := ⟨Loc.act, packname⟩
        if (fsGet m.fs install_path).isSome then
          some (Res.failWith "install-cnr" "Install path already exists", m)
        else
          match ni.archive with
          | none => some (Res.failWith "install-cnr" "Empty archive file", m)
          | some arch =>
            let dir : PackDir := { arch with tracking := some arch.files }
            let m' : Mgr := { m with fs := fsAdd m.fs install_path dir }
            let base : Res := { action := "install-cnr",
                                target_path := some install_path,
                                target_version := vspec }
            finishWithPostinstall env m' base install_path rp

/-- `is_valid_url`: an HTTP(S)-style URL (scheme + netloc) or an SSH git
URL of shape `(.+@|ssh://).+:.+`. -/
def is_valid_url (u : String) : Bool :=
  (match sSplitOn u "://" with
   | [a, b] => a ≠ "" && b ≠ ""
   | _ => false) ||
  (match sSplitOn u "@" with
   | a :: b :: rest => a ≠ "" && hasSub (sIntercalate "@" (b :: rest)) ":"
   | _ => false) ||
  (sStartsWith u "ssh://" && hasSub (sDrop u 6) ":")

/-- `UnifiedManager.repo_install`: clone a git repository into `repo_path`
(a failing clone — including an existing non-empty destination — is caught
and reported as a failure result). -/
def repo_install (env : Env) (m : Mgr) (url : String) (repo_path : Path)
    (rp : Bool) : Option (Res × Mgr) :=
  if hasSub (sToLower url) "comfyui-manager" then
    some ({ Res.failWith "install-git" "ignored" with itemCount := 1 }, m)
  else if ¬ is_valid_url url then
    some ({ Res.failWith "install-git" "Invalid git url" with itemCount := 1 }, m)
  else
    let url := if sEndsWith url "/" then sDropRight url 1 else url
    if ¬ env.cloneOk url then
      some ({ Res.failWith "install-git" "Install(git-clone) error" with
              itemCount := 1 }, m)
    else if (fsGet m.fs repo_path).isSome then
      some ({ Res.failWith "install-git" "Install(git-clone) error" with
              itemCount := 1 }, m)
    else
      let m' : Mgr := { m with fs := fsAdd m.fs repo_path (env.cloneDir url) }
      let base : Res := { action := "install-git", itemCount := 1,
                          target_path := some repo_path,
                          target_version := some "nightly" }
      finishWithPostinstall env m' base repo_path rp

def listUnion (a b : List String) : List String :=
  a ++ b.filter (fun f => ¬ f ∈ a)

/-- Steps 1–7 of `cnr_switch_version_instant` case B: download the archive
and extract it over `install_path`, collecting garbage files listed only in
the previous manifest, then write the fresh manifest. -/
def cnrSwitchExtract (env : Env) (m : Mgr) (packname vs : String)
    (install_path : Path) (ni : NodeVersionInfo) (rp : Bool) :
    Option (Res × Mgr) :=
  match ni.archive with
  | none =>
    let emptyDir : Bool :=
      match fsGet m.fs install_path with
      | some d => d.git == none && d.meta == none && d.tracking == none && d.files == []
      | none => true
    let fs' := if emptyDir then fsRemove m.fs install_path else m.fs
    some (Res.failWith "switch-cnr" ("Empty archive file: " ++ packname),
          { m with fs := fs' })
  | some arch =>
    let old := fsGet m.fs install_path
    let prev := (old.bind (·.tracking)).getD []
    let garbage := prev.filter (fun f => ¬ f ∈ arch.files)
    let oldFiles := (old.map (·.files)).getD []
    let newDir : PackDir :=
      { git := old.bind (·.git)
        meta :=
          match arch.meta with
          | some mm => some mm
          | none => old.bind (·.meta)
        tracking := some arch.files
        files := listUnion (oldFiles.filter (fun f => ¬ f ∈ garbage)) arch.files }
    let m' : Mgr := { m with fs := fsSet m.fs install_path newDir }
    let base : Res := { action := "switch-cnr", target_path := some install_path,
                        target_version := some vs }
    finishWithPostinstall env m' base install_path rp

/-- Case A tail of `cnr_switch_version_instant`: enable the disabled copy
of the requested version and run the post-install step on the enabled
path. -/
def cnrSwitchCaseAEnable (env : Env) (m : Mgr) (packname vs : String)
    (rp : Bool) : Option (Res × Mgr) :=
  match unified_enable env m packname (some vs) with
  | none => none
  | some (eres, m2) =>
    if ¬ eres.result then
      some (Res.failWith "switch-cnr" "Failed to enable CNR version", m2)
    else
      match eres.target_path with
      | none => none  -- the post-install step joins a `None` path and raises
      | some ip =>
        let base : Res := { action := "switch-cnr", target_path := some ip,
                            target_version := some vs }
        finishWithPostinstall env m2 base ip rp

/-- Case A of `cnr_switch_version_instant`: the requested release already
exists under `.disabled/`; toggle by disabling the active instance and
enabling the inactive one. -/
def cnrSwitchCaseA (env : Env) (m : Mgr) (packname vs : String) (rp : Bool) :
    Option (Res × Mgr) :=
  match get_active_pack env m.idx packname with
  | some a =>
    match unified_disable env m a.id with
    | none => none
    | some (dres, m1) =>
      if ¬ dres.result then
        some (Res.failWith "switch-cnr" "Failed to disable current version", m1)
      else cnrSwitchCaseAEnable env m1 packname vs rp
  | none => cnrSwitchCaseAEnable env m packname vs rp

/-- Case B of `cnr_switch_version_instant`: the requested release is not
inactive; a nightly active instance is disabled first (preserving its git
history), a release active instance is upgraded in place. -/
def cnrSwitchCaseB (env : Env) (m : Mgr) (packname vs : String)
    (ni : NodeVersionInfo) (rp : Bool) : Option (Res × Mgr) :=
  match get_active_pack env m.idx packname with
  | none =>
    some (Res.failWith "switch-cnr" "was not previously installed", m)
  | some active_node =>
    let isNightlyDir := ((fsGet m.fs active_node.fullpath).bind (·.git)).isSome
    if isNightlyDir then
      match unified_disable env m active_node.id with
      | none => none
      | some (dres, m1) =>
        if ¬ dres.result then
          some (Res.failWith "switch-cnr" "Failed to disable Nightly version", m1)
        else cnrSwitchExtract env m1 packname vs active_node.fullpath ni rp
    else cnrSwitchExtract env m packname vs active_node.fullpath ni rp

/-- `UnifiedManager.cnr_switch_version_instant`. -/
def cnr_switch_version_instant (env : Env) (m : Mgr) (packname : String)
    (vspec : Option String) (rp : Bool) : Option (Res × Mgr) :=
  let active_node := get_active_pack env m.idx packname
  let inactive_any := get_inactive_pack env m.idx packname none
  let original0 :=
    match active_node with
    | some a => a.id
    | none =>
      match inactive_any with
      | some i => i.id
      | none => packname
  let original_packname := if hasSub original0 "/" then pathBase original0 else original0
  match env.installNode original_packname vspec with
  | none => some (Res.failWith "switch-cnr" "not available node", m)
  | some ni =>
    if ¬ ni.downloadOk then some (Res.failWith "switch-cnr" "not available node", m)
    else
      let vs := ni.version
      match get_inactive_pack env m.idx packname (some vs) with
      | some inode =>
        if inode.is_from_cnr && inode.version = vs then
          cnrSwitchCaseA env m packname vs rp
        else cnrSwitchCaseB env m packname vs ni rp
      | none => cnrSwitchCaseB env m packname vs ni rp

/-- `UnifiedManager.cnr_switch_version_lazy`: reserves the switch for the
next startup; the tree is untouched now. -/
def cnr_switch_version_lazy (env : Env) (m : Mgr) (packname : String)
    (vspec : Option String) (rp : Bool) : Option (Res × Mgr) :=
  match env.installNode packname vspec with
  | none => some (Res.failWith "switch-cnr" "not available node", m)
  | some ni =>
    if ¬ ni.downloadOk then some (Res.failWith "switch-cnr" "not available node", m)
    else
      match get_active_pack env m.idx packname with
      | none => some (Res.failWith "switch-cnr" "was not previously installed", m)
      | some a =>
        if a.version = ni.version then some (Res.skipMsg "Up to date", m)
        else if rp then
          some ({ action := "switch-cnr", postinstall := some true }, m)
        else some ({ action := "switch-cnr" }, m)

/-- `UnifiedManager.cnr_switch_version`. -/
def cnr_switch_version (env : Env) (m : Mgr) (packname : String)
    (vspec : Option String) (instant rp : Bool) : Option (Res × Mgr) :=
  if instant then cnr_switch_version_instant env m packname vspec rp
  else cnr_switch_version_lazy env m packname vspec rp

/-- Nightly tail of `switch_version`: enable the disabled nightly copy and
run the post-install step on the enabled path. -/
def switchNightlyEnable (env : Env) (m : Mgr) (packname : String) (rp : Bool) :
    Option (Res × Mgr) :=
  match unified_enable env m packname (some "nightly") with
  | none => none
  | some (eres, m2) =>
    if ¬ eres.result then
      some (Res.failWith "switch-version" "Failed to enable Nightly version", m2)
    else
      match eres.target_path with
      | none => none  -- the post-install step joins a `None` path and raises
      | some ip =>
        let base : Res := { action := "switch-version", target_path := some ip }
        finishWithPostinstall env m2 base ip rp

/-- `UnifiedManager.switch_version`. -/
def switch_version (env : Env) (m : Mgr) (packname : String)
    (mode : Option String) (rp : Bool) : Option (Res × Mgr) :=
  if mode = some "nightly" then
    match get_inactive_pack env m.idx packname (some "nightly") with
    | none =>
      some (Res.failWith "switch-version" "Nightly version not installed", m)
    | some _ =>
      match get_active_pack env m.idx packname with
      | some active_node =>
        match unified_disable env m active_node.id with
        | none => none
        | some (dres, m1) =>
          if ¬ dres.result then
            some (Res.failWith "switch-version" "Failed to disable current version", m1)
          else switchNightlyEnable env m1 packname rp
      | none => switchNightlyEnable env m packname rp
  else cnr_switch_version_instant env m packname mode rp

/-- `UnifiedManager.unified_update`: a nightly active instance is
fetch-merged in place (directory identity unchanged); a release active
instance delegates to the switch logic at the registry's latest. -/
def unified_update (env : Env) (m : Mgr) (packname : String)
    (instant rp : Bool) : Option (Res × Mgr) :=
  match get_active_pack env m.idx packname with
  | none => some (Res.failWith "update" "not installed", m)
  | some pack =>
    if pack.is_nightly then
      match fsGet m.fs pack.fullpath with
      | none => some (Res.failWith "update-git" "Path not found", m)
      | some d =>
        if d.git = none then some (Res.failWith "update-git" "Path not found", m)
        else
          match env.repoUpdate pack.fullpath.name with
          | none => some (Res.failWith "update-git" "Not updatable branch", m)
          | some false => some (Res.skipMsg "Up to date", m)
          | some true =>
            let base : Res := { action := "update-git",
                                target_version := some "nightly" }
            finishWithPostinstall env m base pack.fullpath rp
    else cnr_switch_version env m packname none instant rp

/-- Is a 40-character hexadecimal git commit hash? -/
def isGitHash (s : String) : Bool :=
  s.data.length = 40 && (sToLower s).data.all (fun c => "0123456789abcdef".data.contains c)

/-- The disable loop of `install_by_id`: disable, one by one, every enabled
instance found by the merged lookup (the index staying stale throughout). -/
def disableLoop (env : Env) : Mgr → List Pack → Option Mgr
  | m, [] => some m
  | m, pkg :: rest =>
    if pkg.disabled then disableLoop env m rest
    else
      match unified_disable env m pkg.id with
      | none => none
      | some (_, m') => disableLoop env m' rest

/-- Final flow of `install_by_id` (after the version-specific dispatch):
the `nightly` branch clones from the registry's repository URL after
disabling any enabled version; otherwise every enabled merged instance is
disabled, then the inactive copy is enabled when one matches, else a fresh
release download is performed. -/
def installTail (env : Env) (m1 : Mgr) (packname pfc : String)
    (vspecOpt : Option String) (rp : Bool) : Option (Res × Mgr) :=
  if vspecOpt = some "nightly" then
    match env.nodepack packname with
    | none =>
      some (Res.failWith "fail" "not a node pack registered in the registry", m1)
    | some pack_info =>
      match pack_info.repository with
      | none => some (Res.failWith "fail" "No nightly version available", m1)
      | some repo_url =>
        let m2 := m1.reload
        let pn := normalize_package_name packname
        let m3opt : Option Mgr :=
          if is_enabled env m2.idx pn none then
            match unified_disable env m2 pn with
            | none => none
            | some (_, m3) => some m3
          else some m2
        match m3opt with
        | none => none
        | some m3 =>
          let to_path : Path := ⟨Loc.act, packname⟩
          match repo_install env m3 repo_url to_path rp with
          | none => none
          | some (res, m4) =>
            if ¬ res.result then some (res, m4)
            else some ({ res with target_version := some "nightly" }, m4)
  else
    let m2 := m1.reload
    let enabled_packages := get_packages_by_name_or_url env m2.idx pfc
    match disableLoop env m2 enabled_packages with
    | none => none
    | some m3 =>
      let m4 := if enabled_packages.isEmpty then m3 else m3.reload
      if is_disabled env m4.idx pfc vspecOpt then unified_enable env m4 pfc vspecOpt
      else cnr_install env m4 packname vspecOpt rp

/-- `UnifiedManager.install_by_id`, with a fuel bound on the URL→registry
redirect recursion (`none` at fuel 0 models the unbounded Python
recursion a pathological registry answer would cause). -/
def installByIdGo (env : Env) :
    Nat → Mgr → String → Option String → Bool → Option (Res × Mgr)
  | 0, _, _, _, _ => none
  | fuel + 1, m, packname0, vspec0, rp =>
    if hasSub (sToLower packname0) "comfyui-manager" then
      some ({ action := "skip", result := false, msg := some "ignored" }, m)
    else
      -- parse an optional `Name@<40-hex-hash>` form
      let parsed : String × Option String :=
        if hasSub packname0 "@" ∧ ¬ is_url_like packname0 then
          match resolve_node_spec env m.idx packname0 GuessMode.world with
          | some (pn, some pv, _) =>
            if isGitHash pv then (pn, some pv) else (packname0, none)
          | _ => (packname0, none)
        else (packname0, none)
      let packname := parsed.1
      if is_url_like packname then
        let repo_name0 := pathBase packname
        let repo_name :=
          if sEndsWith repo_name0 ".git" then sDropRight repo_name0 4 else repo_name0
        match env.nodepackByUrl (compact_url packname) with
        | some cnr_packname =>
          -- registered in the registry: install the registry id at nightly
          installByIdGo env fuel m cnr_packname (some "nightly") rp
        | none =>
          if ¬ env.securityWeak then
            some (Res.failWith "fail" "security_level must be weak", m)
          else repo_install env m packname ⟨Loc.act, repo_name⟩ rp
      else
        -- ensure a target version
        let ensure : (Option (Res × Mgr)) ⊕ Option String :=
          match vspec0 with
          | some v => Sum.inr (some v)
          | none =>
            if is_enabled env m.idx packname none then
              -- a hash checkout on an enabled nightly touches only the
              -- working-tree contents
              Sum.inl (some ({ action := "skip" }, m))
            else if is_disabled env m.idx packname none then
              Sum.inl (unified_enable env m packname none)
            else
              Sum.inr (resolve_unspecified_version env m.idx packname GuessMode.world)
        match ensure with
        | Sum.inl r => r
        | Sum.inr vspecOpt =>
          let m1 := m.reload
          let pfc := normalize_package_name packname
          if is_enabled env m1.idx pfc vspecOpt then
            some ({ action := "skip", target_version := vspecOpt }, m1)
          else
            match get_active_pack env m1.idx pfc with
            | some _active =>
              match get_inactive_pack env m1.idx pfc vspecOpt with
              | some _ => switch_version env m1 pfc vspecOpt rp
              | none => installTail env m1 packname pfc vspecOpt rp
            | none =>
              if is_disabled env m1.idx pfc vspecOpt then
                let m2opt : Option Mgr :=
                  if is_enabled env m1.idx pfc none then
                    match unified_disable env m1 pfc with
                    | none => none
                    | some (_, m2) => some m2
                  else some m1
                match m2opt with
                | none => none
                | some m2 => unified_enable env m2 pfc vspecOpt
              else installTail env m1 packname pfc vspecOpt rp

/-- `install_by_id` at the fuel sufficient for the single URL→registry
redirect the engine performs. -/
def install_by_id (env : Env) (m : Mgr) (packname : String)
    (vspec : Option String) (rp : Bool) : Option (Res × Mgr) :=
  installByIdGo env 2 m packname vspec rp

/-! ## Engine operations as a transition system -/

/-- One queued engine operation. -/
inductive Op
  | enableOp (packname : String) (vspec : Option String)
  | disableOp (packname : String)
  | installOp (packname : String) (vspec : Option String)
  | switchOp (packname : String) (mode : Option String)
  | updateOp (packname : String)
  | uninstallOp (packname : String)
deriving DecidableEq, Repr

/-- Run one operation against the on-disk state: the index is rebuilt
first (spec §4.4: "All operations first rebuild the Index"), and `none`
models an uncaught exception — an operation that did not complete. -/
def runOp (env : Env) (fs : FS) (op : Op) : Option (Res × FS) :=
  let m := mkMgr fs
  let r :=
    match op with
    | Op.enableOp p v => unified_enable env m p v
    | Op.disableOp p => unified_disable env m p
    | Op.installOp p v => install_by_id env m p v false
    | Op.switchOp p md => switch_version env m p md false
    | Op.updateOp p => unified_update env m p true false
    | Op.uninstallOp p => unified_uninstall env m p
  r.map (fun x => (x.1, x.2.fs))

/-- Run a sequence of operations, propagating non-completion. -/
def runSeq (env : Env) : FS → List Op → Option FS
  | fs, [] => some fs
  | fs, op :: ops =>
    match runOp env fs op with
    | none => none
    | some (_, fs') => runSeq env fs' ops

/-! ## Derived predicates and auxiliary definitions used by the theorems -/

/-- Paths in the tree are pairwise distinct. -/
def pathsNodup (fs : FS) : Prop := (fs.map (·.1)).Nodup

/-- Which index keys a classified pack is filed under (its id, and its
normalized id when it is a registry release whose id is not already
normalized). -/
def idxPred (k : String) (pk : Pack) : Bool :=
  pk.id = k ||
    (pk.is_from_cnr && ¬ normalize_package_name pk.id = pk.id &&
      normalize_package_name pk.id = k)

/-- Number of enabled instances classified under a given logical id. -/
def activeIdCount (fs : FS) (i : String) : Nat :=
  ((instancesOf fs).filter (fun pk => pk.id = i && pk.is_enabled)).length

/-- The single-active-instance invariant of the spec: for every logical id,
at most one instance with `active = true`. -/
def ActiveUnique (fs : FS) : Prop := ∀ i : String, activeIdCount fs i ≤ 1

/-- Reference fold: the first-scanned highest disabled release, starting
from an accumulator (mirrors the `latest_pack` accumulation of
`get_inactive_pack`). -/
def gMax : List Pack → Option Pack → Option Pack
  | [], acc => acc
  | x :: rest, none =>
    if x.is_disabled && x.is_from_cnr then gMax rest (some x) else gMax rest none
  | x :: rest, some l =>
    if x.is_disabled && x.is_from_cnr then
      if strictVersionLt l.version x.version then gMax rest (some x)
      else gMax rest (some l)
    else gMax rest (some l)

/-- Reference fold: the last element satisfying `p`, starting from an
accumulator (mirrors the `nightly_pack` / `unknown_pack` accumulation). -/
def gLastBy (p : Pack → Bool) : List Pack → Option Pack → Option Pack
  | [], acc => acc
  | x :: rest, acc => gLastBy p rest (if p x then some x else acc)

/-- The version override read from an inactive directory's `name@tag`
directory name during classification. -/
def dirVerOverride (p : Path) : Option String :=
  if p.loc = Loc.dis then
    match sSplitOn p.name "@" with
    | [_, b] => some (sReplace b "_" ".")
    | _ => none
  else none

/-- A trivial environment: the registry knows nothing, no network operation
succeeds. -/
def env0 : Env :=
  { nodepack := fun _ => none
    nodepackByUrl := fun _ => none
    installNode := fun _ _ => none
    cloneOk := fun _ => false
    cloneDir := fun _ => {}
    postinstallOk := fun _ => true
    repoUpdate := fun _ => none
    securityWeak := false }

/-- A release directory declaring id `foo`, version `1.0.0`, name `Foo`. -/
def dFooRelease : PackDir :=
  { meta := some { id := "foo", version := "1.0.0", name := "Foo" },
    tracking := some ["a.py"], files := ["a.py"] }

/-- A one-pack state: `foo` disabled under its canonical inactive slot. -/
def fsOneDisabled : FS := [(⟨Loc.dis, "foo@1_0_0"⟩, dFooRelease)]

/-- The enabled instance of `foo` as classified from `fsC10`. -/
def actFoo : Pack :=
  { id := "foo", fullpath := ⟨Loc.act, "Foo"⟩, disabled := false,
    version := "1.0.0", repo_url := none }

/-- A stale disabled variant already occupying the inactive slot
`foo@1_0_0`, with different content than the enabled copy. -/
def dFooStale : PackDir :=
  { meta := some { id := "foo", version := "1.0.0", name := "Foo" },
    tracking := some ["old.py"], files := ["old.py"] }

/-- State for C10: `Foo` enabled, and `.disabled/foo@1_0_0` already
occupied by a stale variant. -/
def fsC10 : FS :=
  [(⟨Loc.act, "Foo"⟩, dFooRelease), (⟨Loc.dis, "foo@1_0_0"⟩, dFooStale)]

/-- Archive content served by the registry for `foo@1.0.0`. -/
def archFoo : PackDir :=
  { meta := some { id := "foo", version := "1.0.0", name := "Foo" },
    files := ["a.py"] }

/-- Registry answer for `install_node("foo", "1.0.0")`. -/
def niFoo : NodeVersionInfo :=
  { version := "1.0.0", downloadOk := true, archive := some archFoo }

/-- An environment where the registry serves `foo@1.0.0` but every
dependency-installation (post-install) step fails. -/
def envPostFail : Env :=
  { env0 with
    installNode := fun p v =>
      if p = "foo" ∧ v = some "1.0.0" then some niFoo else none
    postinstallOk := fun _ => false }

/-- A nightly working tree for the `nfoo` project. -/
def dNightly : PackDir := { git := some "https://github.com/o/nf" }

/-- State with the nightly tree enabled under its original-cased name. -/
def fsNightly : FS := [(⟨Loc.act, "NFoo"⟩, dNightly)]

/-- The classified enabled nightly instance of `fsNightly`. -/
def pkNightly : Pack :=
  { id := "o/nf", fullpath := ⟨Loc.act, "NFoo"⟩, disabled := false,
    version := "nightly", repo_url := some "https://github.com/o/nf" }

/-- An environment whose registry links the id `nfoo` to the `o/nf`
repository. -/
def envC6 : Env :=
  { env0 with
    nodepack := fun k =>
      if k = "nfoo" then some { repository := some "https://github.com/o/nf" }
      else none }

/-- State with the `foo` release enabled. -/
def fsFooEnabled : FS := [(⟨Loc.act, "Foo"⟩, dFooRelease)]

/-- A release directory declaring `foo` at version `1.0.2`. -/
def dFooRelease102 : PackDir :=
  { meta := some { id := "foo", version := "1.0.2", name := "Foo" },
    tracking := some ["c.py"], files := ["c.py"] }

/-- The spec's resolver scenario: inactive releases `1.0.0` and `1.0.2`
and an inactive nightly of the same project. -/
def fsResolver : FS :=
  [(⟨Loc.dis, "foo@1_0_0"⟩, dFooRelease),
   (⟨Loc.dis, "foo@1_0_2"⟩, dFooRelease102),
   (⟨Loc.dis, "foo@nightly"⟩, dNightly)]

/-- Registry linking `foo` to the nightly's repository, so the merged
lookup sees all three instances. -/
def envC4 : Env :=
  { env0 with
    nodepack := fun k =>
      if k = "foo" then some { repository := some "https://github.com/o/nf" }
      else none }

/-- The classified inactive release `foo@1.0.2` of `fsResolver`. -/
def pk102 : Pack :=
  { id := "foo", fullpath := ⟨Loc.dis, "foo@1_0_2"⟩, disabled := true,
    version := "1.0.2", repo_url := none }

/-- The merged set of instances `unified_uninstall` deletes when invoked
on a freshly rebuilt index. -/
def uninstallTargets (env : Env) (fs : FS) (packname : String) : List Pack :=
  get_packages_by_name_or_url env (buildIndex fs) packname

/-- The on-disk state `unified_uninstall` leaves behind: every matched
instance directory removed. -/
def uninstallResultFS (env : Env) (fs : FS) (packname : String) : FS :=
  (uninstallTargets env fs packname).foldl
    (fun acc q => fsRemove acc q.fullpath) fs

/-- The disabled `foo` release of `fsOneDisabled`, as classified. -/
def pkFooDis : Pack :=
  { id := "foo", fullpath := ⟨Loc.dis, "foo@1_0_0"⟩, disabled := true,
    version := "1.0.0", repo_url := none }

/-- A second release of `foo`: version `2.0.0`, declared name `FooV2`. -/
def dFooV2 : PackDir :=
  { meta := some { id := "foo", version := "2.0.0", name := "FooV2" },
    tracking := some ["b.py"], files := ["b.py"] }

/-- `foo@1.0.0` enabled with `foo@2.0.0` disabled alongside. -/
def fsC1 : FS :=
  [(⟨Loc.act, "Foo"⟩, dFooRelease), (⟨Loc.dis, "foo@2_0_0"⟩, dFooV2)]

/-- Registry answer serving the `foo@2.0.0` archive. -/
def niFooV2 : NodeVersionInfo :=
  { version := "2.0.0", downloadOk := true,
    archive := some { meta := some { id := "foo", version := "2.0.0", name := "FooV2" }, files := ["b.py"] } }

/-- An environment whose registry serves `foo@2.0.0`. -/
def envC1 : Env :=
  { env0 with installNode := fun p v =>
      if p = "foo" ∧ (v = some "2.0.0" ∨ v = none) then some niFooV2
      else none }

/-! ## Basic lemmas about the filesystem model -/

theorem fsGet_mem {fs : FS} {p : Path} {d : PackDir} (h : fsGet fs p = some d) :
    (p, d) ∈ fs := by
  unfold fsGet at h
  cases hfind : fs.find? (fun e => e.1 = p) with
  | none => simp [hfind] at h
  | some e =>
    simp only [hfind, Option.map_some'] at h
    have hmem := List.mem_of_find?_eq_some hfind
    have hp := List.find?_some hfind
    simp only [decide_eq_true_eq] at hp
    cases e with
    | mk p' d' => cases hp; cases h; exact hmem

theorem fsGet_eq_none_iff {fs : FS} {p : Path} :
    fsGet fs p = none ↔ ∀ e ∈ fs, e.1 ≠ p := by
  unfold fsGet
  simp [Option.map_eq_none', List.find?_eq_none]

theorem fsGet_of_mem_nodup {fs : FS} {p : Path} {d : PackDir}
    (hnd : pathsNodup fs) (h : (p, d) ∈ fs) : fsGet fs p = some d := by
  induction fs with
  | nil => simp at h
  | cons e rest ih =>
    unfold pathsNodup at hnd
    simp only [List.map_cons, List.nodup_cons] at hnd
    rcases List.mem_cons.mp h with h | h
    · subst h
      unfold fsGet
      rw [List.find?_cons_of_pos _ (by simp)]
      rfl
    · have hne : e.1 ≠ p := by
        intro he
        exact hnd.1 (he ▸ List.mem_map_of_mem (·.1) h)
      unfold fsGet
      rw [List.find?_cons_of_neg _ (by simp [hne])]
      exact ih hnd.2 h

theorem mem_fsRemove {fs : FS} {p : Path} {e : Path × PackDir} :
    e ∈ fsRemove fs p ↔ e ∈ fs ∧ e.1 ≠ p := by
  unfold fsRemove
  simp [List.mem_filter]

theorem fsGet_fsRemove_self (fs : FS) (p : Path) : fsGet (fsRemove fs p) p = none := by
  rw [fsGet_eq_none_iff]
  intro e he
  exact (mem_fsRemove.mp he).2

theorem fsGet_fsRemove_ne {fs : FS} {p q : Path} (h : q ≠ p) :
    fsGet (fsRemove fs p) q = fsGet fs q := by
  unfold fsGet fsRemove
  induction fs with
  | nil => rfl
  | cons e rest ih =>
    by_cases he : e.1 = p
    · rw [List.filter_cons_of_neg (by simp [he])]
      rw [List.find?_cons_of_neg _ (by simp [he, Ne.symm h])]
      exact ih
    · by_cases heq : e.1 = q
      · rw [List.filter_cons_of_pos (by simp [he]),
          List.find?_cons_of_pos _ (by simp [heq]),
          List.find?_cons_of_pos _ (by simp [heq])]
      · rw [List.filter_cons_of_pos (by simp [he]),
          List.find?_cons_of_neg _ (by simp [heq]),
          List.find?_cons_of_neg _ (by simp [heq])]
        exact ih

theorem fsGet_fsAdd_ne {fs : FS} {p q : Path} {d : PackDir} (h : q ≠ p) :
    fsGet (fsAdd fs p d) q = fsGet fs q := by
  unfold fsGet fsAdd
  rw [List.find?_append]
  cases hf : fs.find? (fun e => decide (e.1 = q)) with
  | some e => rfl
  | none =>
    simp only [Option.none_or]
    rw [List.find?_cons_of_neg _ (by simp [Ne.symm h])]
    rfl

theorem fsGet_fsAdd_self {fs : FS} {p : Path} {d : PackDir}
    (h : fsGet fs p = none) : fsGet (fsAdd fs p d) p = some d := by
  unfold fsGet at h
  rw [Option.map_eq_none'] at h
  unfold fsGet fsAdd
  rw [List.find?_append, h]
  simp only [Option.none_or]
  rw [List.find?_cons_of_pos _ (by simp)]
  rfl

theorem pathsNodup_fsRemove {fs : FS} (p : Path) (h : pathsNodup fs) :
    pathsNodup (fsRemove fs p) := by
  unfold pathsNodup fsRemove at *
  exact (List.Sublist.map _ (List.filter_sublist fs)).nodup h

theorem pathsNodup_fsAdd {fs : FS} {p : Path} {d : PackDir}
    (h : pathsNodup fs) (hp : fsGet fs p = none) : pathsNodup (fsAdd fs p d) := by
  unfold pathsNodup fsAdd at *
  rw [List.map_append, List.nodup_append]
  refine ⟨h, by simp, ?_⟩
  intro q hq
  rw [fsGet_eq_none_iff] at hp
  simp only [List.mem_map] at hq
  rcases hq with ⟨e, he, rfl⟩
  simp only [List.map_cons, List.map_nil, List.mem_singleton]
  intro hc
  exact hp e he (hc ▸ rfl)

/-! ## Scan and classification lemmas -/

theorem from_fullpath_fullpath (p : Path) (d : PackDir) :
    (from_fullpath p d).fullpath = p := by
  unfold from_fullpath
  cases resolve_from_path d with
  | none => simp
  | some info => rcases info with ⟨a, b, c⟩; simp

theorem from_fullpath_disabled_of_dis {p : Path} (d : PackDir)
    (h : p.loc = Loc.dis) : (from_fullpath p d).disabled = true := by
  unfold from_fullpath
  cases hr : resolve_from_path d with
  | none => by_cases hx : sEndsWith p.name ".disabled" <;> simp [hx, h]
  | some info =>
    obtain ⟨a, b, c⟩ := info
    by_cases hx : sEndsWith p.name ".disabled" <;> simp [hx, h]

theorem from_fullpath_enabled_iff (p : Path) (d : PackDir) :
    (from_fullpath p d).disabled = false ↔
      p.loc = Loc.act ∧ ¬ sEndsWith p.name ".disabled" := by
  unfold from_fullpath
  cases hr : resolve_from_path d with
  | none =>
    cases hl : p.loc <;> cases hx : sEndsWith p.name ".disabled" <;> simp [hl, hx]
  | some info =>
    obtain ⟨a, b, c⟩ := info
    cases hl : p.loc <;> cases hx : sEndsWith p.name ".disabled" <;> simp [hl, hx]

theorem mem_scanEntries {fs : FS} {e : Path × PackDir} :
    e ∈ scanEntries fs ↔
      e ∈ fs ∧ ((e.1.loc = Loc.act ∧ e.1.name ≠ "__pycache__") ∨ e.1.loc = Loc.dis) := by
  unfold scanEntries
  rw [List.mem_append]
  constructor
  · rintro (h | h) <;> rw [List.mem_filter] at h
    · refine ⟨h.1, Or.inl ?_⟩
      have := h.2; simp only [decide_eq_true_eq] at this
      simpa using this
    · refine ⟨h.1, Or.inr ?_⟩
      have := h.2; simpa using this
  · rintro ⟨hm, h | h⟩
    · left; rw [List.mem_filter]; exact ⟨hm, by simp [h.1, h.2]⟩
    · right; rw [List.mem_filter]; exact ⟨hm, by simp [h]⟩

theorem mem_instancesOf {fs : FS} {pk : Pack} :
    pk ∈ instancesOf fs ↔ ∃ e ∈ scanEntries fs, pk = from_fullpath e.1 e.2 := by
  unfold instancesOf
  constructor
  · intro h
    rcases List.mem_map.mp h with ⟨e, he, rfl⟩
    exact ⟨e, he, rfl⟩
  · rintro ⟨e, he, rfl⟩
    exact List.mem_map.mpr ⟨e, he, rfl⟩

/-! ## Index characterization -/

theorem lookupPacks_addPack_self (m : ById) (k : String) (pk : Pack) :
    lookupPacks (addPack m k pk) k = lookupPacks m k ++ [pk] := by
  induction m with
  | nil =>
    unfold addPack lookupPacks
    rw [List.find?_cons_of_pos _ (by simp), List.find?_nil]
    rfl
  | cons e rest ih =>
    unfold addPack
    by_cases h : e.1 = k
    · rw [if_pos h]
      unfold lookupPacks
      rw [List.find?_cons_of_pos _ (by simp [h]), List.find?_cons_of_pos _ (by simp [h])]
      rfl
    · rw [if_neg h]
      unfold lookupPacks
      rw [List.find?_cons_of_neg _ (by simp [h]), List.find?_cons_of_neg _ (by simp [h])]
      exact ih

theorem lookupPacks_addPack_ne (m : ById) {k k' : String} (pk : Pack)
    (h : k' ≠ k) : lookupPacks (addPack m k pk) k' = lookupPacks m k' := by
  induction m with
  | nil =>
    unfold addPack lookupPacks
    rw [List.find?_cons_of_neg _ (by simp [Ne.symm h]), List.find?_nil]
  | cons e rest ih =>
    unfold addPack
    by_cases he : e.1 = k
    · rw [if_pos he]
      unfold lookupPacks
      by_cases he' : e.1 = k'
      · exact absurd (he'.symm.trans he) h
      · rw [List.find?_cons_of_neg _ (by simp [he']),
          List.find?_cons_of_neg _ (by simp [he'])]
    · rw [if_neg he]
      unfold lookupPacks
      by_cases he' : e.1 = k'
      · rw [List.find?_cons_of_pos _ (by simp [he']),
          List.find?_cons_of_pos _ (by simp [he'])]
      · rw [List.find?_cons_of_neg _ (by simp [he']),
          List.find?_cons_of_neg _ (by simp [he'])]
        exact ih

theorem lookupPacks_indexPack (idx : Index) (pk : Pack) (k : String) :
    lookupPacks (indexPack idx pk).byId k =
      lookupPacks idx.byId k ++ (if idxPred k pk then [pk] else []) := by
  unfold indexPack
  by_cases hcond : (pk.is_from_cnr = true) ∧ normalize_package_name pk.id ≠ pk.id
  · simp only [if_pos hcond]
    by_cases hid : pk.id = k
    · have hnk : normalize_package_name pk.id ≠ k := fun hc => hcond.2 (hc.trans hid.symm)
      rw [lookupPacks_addPack_ne _ pk (fun hc => hnk hc.symm)]
      rw [hid, lookupPacks_addPack_self]
      simp [idxPred, hid]
    · by_cases hnrm : normalize_package_name pk.id = k
      · rw [hnrm, lookupPacks_addPack_self,
          lookupPacks_addPack_ne _ pk (fun hc => hid hc.symm)]
        have : idxPred k pk = true := by
          unfold idxPred
          simp [hid, hcond.1, hnrm ▸ hcond.2, hnrm]
        rw [this, if_pos rfl]
      · rw [lookupPacks_addPack_ne _ pk (fun hc => hnrm hc.symm),
          lookupPacks_addPack_ne _ pk (fun hc => hid hc.symm)]
        have : idxPred k pk = false := by
          unfold idxPred
          simp [hid, hnrm]
        rw [this]
        simp
  · simp only [if_neg hcond]
    by_cases hid : pk.id = k
    · rw [hid, lookupPacks_addPack_self]
      have : idxPred k pk = true := by unfold idxPred; simp [hid]
      rw [this, if_pos rfl]
    · rw [lookupPacks_addPack_ne _ pk (fun hc => hid hc.symm)]
      have : idxPred k pk = false := by
        unfold idxPred
        rcases not_and_or.mp hcond with h | h
        · simp only [Bool.not_eq_true] at h
          simp [hid, h]
        · rw [not_ne_iff] at h
          simp [hid, h]
      rw [this]
      simp

theorem lookupPacks_foldl (l : List Pack) (idx : Index) (k : String) :
    lookupPacks (l.foldl indexPack idx).byId k =
      lookupPacks idx.byId k ++ l.filter (idxPred k) := by
  induction l generalizing idx with
  | nil => simp
  | cons pk rest ih =>
    simp only [List.foldl_cons, List.filter_cons]
    rw [ih, lookupPacks_indexPack]
    by_cases h : idxPred k pk <;> simp [h]

/-- The index, characterized: the bucket of key `k` holds exactly the
scanned instances filed under `k`, in scan order. -/
theorem lookupPacks_buildIndex (fs : FS) (k : String) :
    lookupPacks (buildIndex fs).byId k = (instancesOf fs).filter (idxPred k) := by
  unfold buildIndex
  rw [lookupPacks_foldl]
  simp [lookupPacks]

/-- Classification when the resolver recognizes the directory: the id is
the resolver's id, and the version is the resolver's version unless the
inactive directory-name tag overrides it. -/
theorem from_fullpath_of_resolve_some {p : Path} {d : PackDir}
    {iid iver : String} {iurl : Option String}
    (h : resolve_from_path d = some (iid, iver, iurl)) :
    (from_fullpath p d).id = iid ∧
    (from_fullpath p d).version = (dirVerOverride p).getD iver := by
  unfold from_fullpath
  rw [h]
  unfold dirVerOverride
  cases hl : p.loc with
  | act =>
    by_cases hx : sEndsWith p.name ".disabled" <;> simp [hl, hx]
  | dis =>
    by_cases hx : sEndsWith p.name ".disabled" <;>
    · cases hsp : sSplitOn p.name "@" with
      | nil => simp [hl, hx, hsp]
      | cons a tl =>
        cases tl with
        | nil => simp [hl, hx, hsp]
        | cons b tl2 =>
          cases tl2 with
          | nil => simp [hl, hx, hsp]
          | cons c tl3 => simp [hl, hx, hsp]

/-- Classification when nothing is recognized: the version is `unknown`
unless the inactive directory-name tag overrides it. -/
theorem from_fullpath_of_resolve_none {p : Path} {d : PackDir}
    (h : resolve_from_path d = none) :
    (from_fullpath p d).version = (dirVerOverride p).getD "unknown" := by
  unfold from_fullpath
  rw [h]
  unfold dirVerOverride
  cases hl : p.loc with
  | act =>
    by_cases hx : sEndsWith p.name ".disabled" <;> simp [hl, hx]
  | dis =>
    by_cases hx : sEndsWith p.name ".disabled" <;>
    · cases hsp : sSplitOn p.name "@" with
      | nil => simp [hl, hx, hsp]
      | cons a tl =>
        cases tl with
        | nil => simp [hl, hx, hsp]
        | cons b tl2 =>
          cases tl2 with
          | nil => simp [hl, hx, hsp]
          | cons c tl3 => simp [hl, hx, hsp]

/-! ## C5 — classification order -/

/-- C5 (counterexample): for a directory in the inactive subtree whose
name carries a version tag, classification is Release with the *declared
id* but **not** the declared version: the directory-name tag `9_9_9`
overrides the metadata's `1.0.0`.  The claim's "classified as Release with
the declared id and version" is false there. -/
theorem c5_counterexample :
    read_cnr_info dFooRelease =
      some { id := "foo", version := "1.0.0", name := "Foo", url := none } ∧
    (from_fullpath ⟨Loc.dis, "foo@9_9_9"⟩ dFooRelease).is_from_cnr = true ∧
    (from_fullpath ⟨Loc.dis, "foo@9_9_9"⟩ dFooRelease).id = "foo" ∧
    (from_fullpath ⟨Loc.dis, "foo@9_9_9"⟩ dFooRelease).version = "9.9.9" ∧
    (from_fullpath ⟨Loc.dis, "foo@9_9_9"⟩ dFooRelease).version ≠ "1.0.0" := by
  refine ⟨rfl, rfl, rfl, rfl, ?_⟩
  decide

/-- C5 (amended): classification checks the version-control marker first —
a working tree gets id `compact_url(remote)` and version `nightly`;
otherwise, with release metadata (and manifest) present, the declared id;
otherwise the kind is Unknown.  A directory is always returned (its
`fullpath` is preserved, never dropped).  However, for directories in the
inactive subtree the `name@tag` directory-name suffix overrides the
version, so the version is the declared one only when no tag applies. -/
theorem c5_amended (p : Path) (d : PackDir) :
    (from_fullpath p d).fullpath = p ∧
    (∀ u, d.git = some u →
      (from_fullpath p d).id = compact_url u ∧
      (from_fullpath p d).version = (dirVerOverride p).getD "nightly") ∧
    (d.git = none → ∀ mt, read_cnr_info d = some mt →
      (from_fullpath p d).id = mt.id ∧
      (from_fullpath p d).version = (dirVerOverride p).getD mt.version) ∧
    (d.git = none → read_cnr_info d = none →
      (from_fullpath p d).version = (dirVerOverride p).getD "unknown") := by
  refine ⟨from_fullpath_fullpath p d, ?_, ?_, ?_⟩
  · intro u hu
    exact from_fullpath_of_resolve_some (by unfold resolve_from_path; rw [hu])
  · intro hg mt hmt
    exact from_fullpath_of_resolve_some
      (by unfold resolve_from_path; rw [hg, hmt])
  · intro hg hmt
    exact from_fullpath_of_resolve_none
      (by unfold resolve_from_path; rw [hg, hmt])

/-- Closed witness for the amended C5 at concrete inputs: a git working
tree, a release directory, and an unmarked directory. -/
theorem c5_amended_witness :
    (from_fullpath ⟨Loc.act, "Foo"⟩ { git := some "https://github.com/o/Foo" }).id =
      "o/Foo" ∧
    (from_fullpath ⟨Loc.act, "Foo"⟩ dFooRelease).id = "foo" ∧
    (from_fullpath ⟨Loc.act, "Foo"⟩ dFooRelease).version = "1.0.0" ∧
    (from_fullpath ⟨Loc.act, "junk"⟩ {}).version = "unknown" := by
  refine ⟨?_, ?_, ?_, ?_⟩
  · have h := (c5_amended ⟨Loc.act, "Foo"⟩
      { git := some "https://github.com/o/Foo" }).2.1 "https://github.com/o/Foo" rfl
    rw [h.1]
    rfl
  · exact ((c5_amended ⟨Loc.act, "Foo"⟩ dFooRelease).2.2.1 rfl
      { id := "foo", version := "1.0.0", name := "Foo", url := none } rfl).1
  · have h := ((c5_amended ⟨Loc.act, "Foo"⟩ dFooRelease).2.2.1 rfl
      { id := "foo", version := "1.0.0", name := "Foo", url := none } rfl).2
    rw [h]
    rfl
  · have h := (c5_amended ⟨Loc.act, "junk"⟩ {}).2.2.2 rfl rfl
    rw [h]
    rfl

/-! ## C7 — disable on nothing-matching / nothing-enabled -/

/-- C7 (counterexample): with no instance of the id on disk, `disable`
returns a **skip success** carrying the message `Not installed` — its
`result` flag is `true`, not an error, contradicting the claim's "fails
with NotInstalled (an error result)". -/
theorem c7_counterexample :
    unified_disable env0 (mkMgr []) "some-pack" =
      some (Res.skipMsg "Not installed", mkMgr []) ∧
    (Res.skipMsg "Not installed").result = true := by
  exact ⟨rfl, rfl⟩

/-- C7 (amended): when no instance matches, `disable` reports a no-op
*skip success* marked `Not installed` (not an error); when instances exist
but none is enabled it reports a skip marked `Already disabled`; in both
cases the state (disk and index) is returned unchanged. -/
theorem c7_amended (env : Env) (fs : FS) (packname : String) :
    (get_packages_by_name_or_url env (buildIndex fs) packname = [] →
      unified_disable env (mkMgr fs) packname =
        some (Res.skipMsg "Not installed", mkMgr fs)) ∧
    (get_packages_by_name_or_url env (buildIndex fs) packname ≠ [] →
      (∀ pk ∈ get_packages_by_name_or_url env (buildIndex fs) packname,
        ¬ pk.is_enabled) →
      unified_disable env (mkMgr fs) packname =
        some (Res.skipMsg "Already disabled", mkMgr fs)) := by
  constructor
  · intro h
    unfold unified_disable
    simp [mkMgr, h]
  · intro hne hall
    unfold unified_disable
    have hfind :
        (get_packages_by_name_or_url env (buildIndex fs) packname).reverse.find?
          (·.is_enabled) = none := by
      rw [List.find?_eq_none]
      intro x hx
      simpa using hall x (List.mem_reverse.mp hx)
    have hemp :
        (get_packages_by_name_or_url env (buildIndex fs) packname).isEmpty = false := by
      cases hp : get_packages_by_name_or_url env (buildIndex fs) packname with
      | nil => exact absurd hp hne
      | cons a tl => rfl
    simp [mkMgr, hfind, hemp]

/-- Everything the merged lookup returns is a scanned instance. -/
theorem mem_get_packages {env : Env} {fs : FS} {packname : String} {pk : Pack}
    (h : pk ∈ get_packages_by_name_or_url env (buildIndex fs) packname) :
    pk ∈ instancesOf fs := by
  unfold get_packages_by_name_or_url at h
  by_cases hu : is_url_like packname = true
  · rw [if_pos hu] at h
    rw [lookupPacks_buildIndex] at h
    exact (List.mem_filter.mp h).1
  · rw [if_neg hu] at h
    cases hml : mergedLink env (buildIndex fs) packname with
    | none =>
      rw [hml] at h
      rw [lookupPacks_buildIndex] at h
      exact (List.mem_filter.mp h).1
    | some u =>
      rw [hml] at h
      rcases List.mem_append.mp h with h | h <;>
        · rw [lookupPacks_buildIndex] at h
          exact (List.mem_filter.mp h).1

/-- An enabled instance lives in the active root. -/
theorem enabled_instance_loc {fs : FS} {pk : Pack} (hm : pk ∈ instancesOf fs)
    (he : pk.is_enabled = true) : pk.fullpath.loc = Loc.act := by
  rcases mem_instancesOf.mp hm with ⟨e, _, rfl⟩
  have hdis : (from_fullpath e.1 e.2).disabled = false := by
    unfold Pack.is_enabled at he
    simpa using he
  rw [from_fullpath_fullpath]
  exact ((from_fullpath_enabled_iff e.1 e.2).mp hdis).1

/-! ## C6 — the tag written by disable -/

/-- C6 (confirmed): `disable` moves the enabled directory to
`.disabled/<normalized-id>@<tag>`.  For a release whose markers are on
disk, the tag is the version re-read from the directory's own metadata at
disable time — whatever version the index had cached (`act.version` is
unconstrained here) — with `.` replaced by `_`; for a nightly instance
(a working tree, which carries no release manifest) the tag is `nightly`.
The third conjunct shows a completed disable indeed creates that slot,
holding the moved directory, with a success result. -/
theorem c6_disable_tag (env : Env) (fs : FS) (packname : String) (act : Pack)
    (dAct : PackDir)
    (hurl : is_url_like packname = false)
    (hslash : hasSub packname "/" = false)
    (hact : (get_packages_by_name_or_url env (buildIndex fs) packname).reverse.find?
      (·.is_enabled) = some act)
    (hdir : fsGet fs act.fullpath = some dAct) :
    (∀ mt, read_cnr_info dAct = some mt → mt.version ≠ "" →
      disTargetPath fs packname act =
        ⟨Loc.dis, normalize_package_name packname ++ "@" ++
          sReplace mt.version "." "_"⟩) ∧
    (read_cnr_info dAct = none → act.version = "nightly" →
      disTargetPath fs packname act =
        ⟨Loc.dis, normalize_package_name packname ++ "@nightly"⟩) ∧
    (∀ r m', unified_disable env (mkMgr fs) packname = some (r, m') →
      r.result = true ∧ fsGet m'.fs (disTargetPath fs packname act) = some dAct) := by
  have hfold : disFolderName packname act = normalize_package_name packname := by
    unfold disFolderName
    simp [hurl, hslash]
  refine ⟨?_, ?_, ?_⟩
  · intro mt hmt hv
    unfold disTargetPath installedVersionAt
    rw [hfold, hdir]
    simp only [Option.some_bind, hmt]
    simp [hv]
  · intro hrd hver
    unfold disTargetPath installedVersionAt
    rw [hfold, hdir]
    simp only [Option.some_bind, hrd, hver]
    have : sReplace "nightly" "." "_" = "nightly" := by decide
    rw [this]
    have : ("@" ++ "nightly" : String) = "@nightly" := by decide
    rw [String.append_assoc, this]
  · intro r m' hcompl
    have hpkne :
        (get_packages_by_name_or_url env (buildIndex fs) packname).isEmpty = false := by
      have hmem := List.mem_of_find?_eq_some hact
      cases hp : get_packages_by_name_or_url env (buildIndex fs) packname with
      | nil =>
        rw [hp] at hmem
        simp at hmem
      | cons a tl => rfl
    have henb : act.is_enabled = true := by
      have := List.find?_some hact
      simpa using this
    have hmem : act ∈ get_packages_by_name_or_url env (buildIndex fs) packname :=
      List.mem_reverse.mp (List.mem_of_find?_eq_some hact)
    have hloc : act.fullpath.loc = Loc.act :=
      enabled_instance_loc (mem_get_packages hmem) henb
    have hne : act.fullpath ≠ disTargetPath fs packname act := by
      intro h
      rw [h] at hloc
      simp [disTargetPath] at hloc
    have hne' : disTargetPath fs packname act ≠ act.fullpath := fun h => hne h.symm
    unfold unified_disable at hcompl
    simp only [mkMgr, hact, hpkne, Bool.false_eq_true, if_false] at hcompl
    by_cases hti : (fsGet fs (disTargetPath fs packname act)).isSome = true
    · have hget1 :
          fsGet (fsRemove fs (disTargetPath fs packname act)) act.fullpath = some dAct := by
        rw [fsGet_fsRemove_ne hne]
        exact hdir
      have hget2 :
          fsGet (fsRemove (fsRemove fs (disTargetPath fs packname act)) act.fullpath)
            (disTargetPath fs packname act) = none := by
        rw [fsGet_fsRemove_ne hne', fsGet_fsRemove_self]
      have hmv : fsMove (fsRemove fs (disTargetPath fs packname act)) act.fullpath
          (disTargetPath fs packname act) =
          some (fsAdd (fsRemove (fsRemove fs (disTargetPath fs packname act))
            act.fullpath) (disTargetPath fs packname act) dAct) := by
        unfold fsMove
        simp only [hget1, hget2, Option.isSome_none, Bool.false_eq_true, if_false]
      simp only [hti, if_true, hmv, Option.some.injEq, Prod.mk.injEq] at hcompl
      obtain ⟨hr, hm'⟩ := hcompl
      subst hr
      subst hm'
      exact ⟨rfl, fsGet_fsAdd_self hget2⟩
    · have htin : fsGet fs (disTargetPath fs packname act) = none :=
        Option.not_isSome_iff_eq_none.mp (by simpa using hti)
      have hget2 :
          fsGet (fsRemove fs act.fullpath) (disTargetPath fs packname act) = none := by
        rw [fsGet_fsRemove_ne hne']
        exact htin
      have hmv : fsMove fs act.fullpath (disTargetPath fs packname act) =
          some (fsAdd (fsRemove fs act.fullpath) (disTargetPath fs packname act) dAct) := by
        unfold fsMove
        simp only [hdir, hget2, Option.isSome_none, Bool.false_eq_true, if_false]
      simp only [htin, Option.isSome_none, Bool.false_eq_true, if_false, hmv,
        Option.some.injEq, Prod.mk.injEq] at hcompl
      obtain ⟨hr, hm'⟩ := hcompl
      subst hr
      subst hm'
      exact ⟨rfl, fsGet_fsAdd_self hget2⟩

/-- Closed witness for C6: a release instance gets the metadata-derived
tag `foo@1_0_0`, a nightly instance gets `nfoo@nightly`, and the completed
disable holds the moved directory at the computed slot. -/
theorem c6_witness :
    disTargetPath fsFooEnabled "foo" actFoo = ⟨Loc.dis, "foo@1_0_0"⟩ ∧
    disTargetPath fsNightly "nfoo" pkNightly = ⟨Loc.dis, "nfoo@nightly"⟩ ∧
    fsGet (fsAdd (fsRemove fsFooEnabled actFoo.fullpath)
        (disTargetPath fsFooEnabled "foo" actFoo) dFooRelease)
      (disTargetPath fsFooEnabled "foo" actFoo) = some dFooRelease := by
  have h1 := c6_disable_tag env0 fsFooEnabled "foo" actFoo dFooRelease
    (by decide) (by decide) (by decide) (by decide)
  have h2 := c6_disable_tag envC6 fsNightly "nfoo" pkNightly dNightly
    (by decide) (by decide) (by decide) (by decide)
  refine ⟨?_, ?_, ?_⟩
  · have := h1.1 { id := "foo", version := "1.0.0", name := "Foo", url := none }
      (by decide) (by decide)
    rw [this]
    decide
  · have := h2.2.1 (by decide) rfl
    rw [this]
    decide
  · exact ((h1.2.2 _ _ rfl).2)

/-! ## C10 — disable over an occupied inactive slot -/

/-- C10 (confirmed): when the computed inactive slot
`.disabled/<normalized-id>@<tag>` already holds a directory, `disable`
deletes the pre-existing variant outright and moves the enabled directory
there; the returned result is a success (`result = true`), never a
Conflict. -/
theorem c10_replaces_occupied_slot (env : Env) (fs : FS) (packname : String)
    (act : Pack) (dAct dOld : PackDir)
    (hact : (get_packages_by_name_or_url env (buildIndex fs) packname).reverse.find?
      (·.is_enabled) = some act)
    (hdir : fsGet fs act.fullpath = some dAct)
    (hto : fsGet fs (disTargetPath fs packname act) = some dOld)
    (hne : act.fullpath ≠ disTargetPath fs packname act) :
    unified_disable env (mkMgr fs) packname =
      some ({ action := "disable", itemCount := 1 },
        { fs := fsAdd (fsRemove (fsRemove fs (disTargetPath fs packname act))
                  act.fullpath) (disTargetPath fs packname act) dAct,
          idx := buildIndex fs }) ∧
    fsGet (fsAdd (fsRemove (fsRemove fs (disTargetPath fs packname act))
        act.fullpath) (disTargetPath fs packname act) dAct)
      (disTargetPath fs packname act) = some dAct := by
  have hne' : disTargetPath fs packname act ≠ act.fullpath := fun h => hne h.symm
  have hpkne :
      (get_packages_by_name_or_url env (buildIndex fs) packname).isEmpty = false := by
    have hmem := List.mem_of_find?_eq_some hact
    cases hp : get_packages_by_name_or_url env (buildIndex fs) packname with
    | nil =>
      rw [hp] at hmem
      simp at hmem
    | cons a tl => rfl
  have hget1 :
      fsGet (fsRemove fs (disTargetPath fs packname act)) act.fullpath = some dAct := by
    rw [fsGet_fsRemove_ne hne]
    exact hdir
  have hget2 :
      fsGet (fsRemove (fsRemove fs (disTargetPath fs packname act)) act.fullpath)
        (disTargetPath fs packname act) = none := by
    rw [fsGet_fsRemove_ne hne', fsGet_fsRemove_self]
  constructor
  · unfold unified_disable
    simp only [mkMgr, hact, hpkne, Bool.false_eq_true, if_false]
    simp only [hto, Option.isSome_some, if_true, fsMove, hget1, hget2,
      Option.isSome_none]
    simp
  · exact fsGet_fsAdd_self hget2

/-- Closed witness for C10: the stale `.disabled/foo@1_0_0` variant is
destroyed and replaced by the moved enabled directory. -/
theorem c10_witness :
    unified_disable env0 (mkMgr fsC10) "foo" =
      some ({ action := "disable", itemCount := 1 },
        { fs := fsAdd (fsRemove (fsRemove fsC10 (disTargetPath fsC10 "foo" actFoo))
                  actFoo.fullpath) (disTargetPath fsC10 "foo" actFoo) dFooRelease,
          idx := buildIndex fsC10 }) ∧
    fsGet (fsAdd (fsRemove (fsRemove fsC10 (disTargetPath fsC10 "foo" actFoo))
        actFoo.fullpath) (disTargetPath fsC10 "foo" actFoo) dFooRelease)
      (disTargetPath fsC10 "foo" actFoo) = some dFooRelease :=
  c10_replaces_occupied_slot env0 fsC10 "foo" actFoo dFooRelease dFooStale
    (by decide) (by decide) (by decide) (by decide)

/-! ## C8 — post-install step versus reported success -/

/-- C8 (counterexample): a fresh release install whose archive extraction
succeeded (the directory is placed, with its manifest) but whose inline
dependency step fails is reported as a **failure** (`result = false`),
contradicting the claim that the operation's result is success even when
the post-install dependency step fails. -/
theorem c8_counterexample :
    (cnr_install envPostFail (mkMgr []) "foo" (some "1.0.0") false).map
        (fun x => (x.1.result, fsGet x.2.fs ⟨Loc.act, "foo"⟩)) =
      some (false, some { archFoo with tracking := some ["a.py"] }) := by
  rfl

/-- C8 (amended): the dependency step runs only after the content is
placed; when the caller requests a deferred post-install
(`return_postinstall`), the result is a success with the step's outcome
attached separately; when executed inline, a failing step marks the whole
operation failed — though the placed content remains on disk.  The last
conjunct states this for `finishWithPostinstall`, the shared tail of
`cnr_install`, `repo_install` and `cnr_switch_version_instant`. -/
theorem c8_amended (env : Env) (fs : FS) (packname v : String)
    (ni : NodeVersionInfo) (arch : PackDir)
    (hni : env.installNode packname (some v) = some ni)
    (hok : ni.downloadOk = true) (harch : ni.archive = some arch)
    (hnm : hasSub (sToLower packname) "comfyui-manager" = false)
    (hfree : fsGet fs ⟨Loc.act, packname⟩ = none) :
    (cnr_install env (mkMgr fs) packname (some v) true =
      some ({ action := "install-cnr", target_path := some ⟨Loc.act, packname⟩,
              target_version := some v,
              postinstall := some (env.postinstallOk packname) },
            { fs := fsAdd fs ⟨Loc.act, packname⟩
                { arch with tracking := some arch.files },
              idx := buildIndex fs })) ∧
    (env.postinstallOk packname = false →
      cnr_install env (mkMgr fs) packname (some v) false =
        some ({ action := "install-cnr", result := false,
                msg := some "Failed to execute install script",
                target_path := some ⟨Loc.act, packname⟩,
                target_version := some v },
              { fs := fsAdd fs ⟨Loc.act, packname⟩
                  { arch with tracking := some arch.files },
                idx := buildIndex fs })) ∧
    (∀ (m : Mgr) (base : Res) (p : Path),
      finishWithPostinstall env m base p true =
        some ({ base with postinstall := some (env.postinstallOk p.name) }, m) ∧
      (env.postinstallOk p.name = false →
        finishWithPostinstall env m base p false =
          some ({ base with result := false, msg := some "Failed to execute install script" }, m))) := by
  refine ⟨?_, ?_, ?_⟩
  · unfold cnr_install
    simp only [mkMgr, hnm, Bool.false_eq_true, if_false, hni, hok, not_true, hfree,
      Option.isSome_none, harch]
    unfold finishWithPostinstall
    simp
  · intro hpi
    unfold cnr_install
    simp only [mkMgr, hnm, Bool.false_eq_true, if_false, hni, hok, not_true, hfree,
      Option.isSome_none, harch]
    unfold finishWithPostinstall
    simp [hpi]
  · intro m base p
    constructor
    · unfold finishWithPostinstall
      simp
    · intro hpi
      unfold finishWithPostinstall
      simp [hpi]

/-- Closed witness for the amended C8 at the concrete failing-dependency
environment. -/
theorem c8_amended_witness :
    cnr_install envPostFail (mkMgr []) "foo" (some "1.0.0") true =
      some ({ action := "install-cnr", target_path := some ⟨Loc.act, "foo"⟩,
              target_version := some "1.0.0", postinstall := some false },
            { fs := fsAdd [] ⟨Loc.act, "foo"⟩
                { archFoo with tracking := some ["a.py"] },
              idx := buildIndex [] }) ∧
    cnr_install envPostFail (mkMgr []) "foo" (some "1.0.0") false =
      some ({ action := "install-cnr", result := false,
              msg := some "Failed to execute install script",
              target_path := some ⟨Loc.act, "foo"⟩,
              target_version := some "1.0.0" },
            { fs := fsAdd [] ⟨Loc.act, "foo"⟩
                { archFoo with tracking := some ["a.py"] },
              idx := buildIndex [] }) := by
  have h := c8_amended envPostFail [] "foo" "1.0.0" niFoo archFoo rfl rfl rfl
    (by decide) rfl
  exact ⟨h.1, h.2.1 rfl⟩

/-! ## Version-order lemmas -/

theorem verFieldsLt_irrefl (a : List Nat) : verFieldsLt a a = false := by
  induction a with
  | nil => rfl
  | cons x xs ih =>
    unfold verFieldsLt
    simp [ih]

theorem verFieldsLt_trans {b a c : List Nat} (h1 : verFieldsLt a b = true)
    (h2 : verFieldsLt b c = true) : verFieldsLt a c = true := by
  induction b generalizing a c with
  | nil =>
    cases a <;> simp [verFieldsLt] at h1
  | cons y ys ih =>
    cases a with
    | nil =>
      cases c with
      | nil => simp [verFieldsLt] at h2
      | cons z zs =>
        unfold verFieldsLt at h1 h2 ⊢
        by_cases hyz : y < z
        · simp [Nat.lt_of_le_of_lt (Nat.zero_le y) hyz]
        · by_cases heq : y = z
          · subst heq
            rw [if_neg hyz, if_pos rfl] at h2
            by_cases h0 : 0 < y
            · simp [h0]
            · rw [if_neg h0] at h1 ⊢
              exact ih h1 h2
          · rw [if_neg hyz, if_neg heq] at h2
            simp at h2
    | cons x xs =>
      cases c with
      | nil => simp [verFieldsLt] at h2
      | cons z zs =>
        unfold verFieldsLt at h1 h2 ⊢
        by_cases hxy : x < y
        · by_cases hyz : y < z
          · simp [Nat.lt_trans hxy hyz]
          · by_cases heq : y = z
            · subst heq
              simp [hxy]
            · rw [if_neg hyz, if_neg heq] at h2
              simp at h2
        · by_cases hxeq : x = y
          · subst hxeq
            rw [if_neg hxy, if_pos rfl] at h1
            by_cases hyz : x < z
            · simp [hyz]
            · by_cases heq : x = z
              · subst heq
                rw [if_neg hyz, if_pos rfl] at h2 ⊢
                exact ih h1 h2
              · rw [if_neg hyz, if_neg heq] at h2
                simp at h2
          · rw [if_neg hxy, if_neg hxeq] at h1
            simp at h1

/-- Nothing is strictly below a version that is not above the empty
(all-zero) field list. -/
theorem verFieldsLt_of_nil {c : List Nat} (h : verFieldsLt [] c = false) :
    ∀ a, verFieldsLt a c = false := by
  induction c with
  | nil =>
    intro a
    cases a <;> rfl
  | cons z zs ih =>
    intro a
    unfold verFieldsLt at h
    by_cases h0 : 0 < z
    · rw [if_pos h0] at h
      simp at h
    · have hz : z = 0 := by omega
      subst hz
      rw [if_neg h0] at h
      cases a with
      | nil =>
        unfold verFieldsLt
        rw [if_neg h0]
        exact h
      | cons x xs =>
        unfold verFieldsLt
        rw [if_neg (by omega : ¬ x < 0)]
        by_cases hxe : x = 0
        · rw [if_pos hxe]
          exact ih h xs
        · rw [if_neg hxe]

theorem verFieldsLt_negtrans {b a c : List Nat} (h1 : verFieldsLt a b = false)
    (h2 : verFieldsLt b c = false) : verFieldsLt a c = false := by
  induction b generalizing a c with
  | nil => exact verFieldsLt_of_nil h2 a
  | cons y ys ih =>
    cases a with
    | nil =>
      unfold verFieldsLt at h1
      by_cases h0 : 0 < y
      · rw [if_pos h0] at h1
        simp at h1
      · have hy : y = 0 := by omega
        subst hy
        rw [if_neg h0] at h1
        cases c with
        | nil => rfl
        | cons z zs =>
          unfold verFieldsLt at h2 ⊢
          by_cases hz : 0 < z
          · rw [if_pos hz] at h2
            simp at h2
          · rw [if_neg hz] at h2 ⊢
            have hz0 : z = 0 := by omega
            subst hz0
            rw [if_pos rfl] at h2
            exact ih h1 h2
    | cons x xs =>
      cases c with
      | nil => cases xs <;> rfl
      | cons z zs =>
        unfold verFieldsLt at h1 h2 ⊢
        have hxy : ¬ x < y := by
          intro hc
          rw [if_pos hc] at h1
          simp at h1
        have hyz : ¬ y < z := by
          intro hc
          rw [if_pos hc] at h2
          simp at h2
        rw [if_neg hxy] at h1
        rw [if_neg hyz] at h2
        rw [if_neg (by omega : ¬ x < z)]
        by_cases hxz : x = z
        · rw [if_pos hxz]
          have hxyeq : x = y := by omega
          have hyzeq : y = z := by omega
          rw [if_pos hxyeq] at h1
          rw [if_pos hyzeq] at h2
          exact ih h1 h2
        · rw [if_neg hxz]

theorem strictVersionLt_irrefl (v : String) : strictVersionLt v v = false :=
  verFieldsLt_irrefl _

theorem strictVersionLt_negtrans {a b c : String}
    (h1 : strictVersionLt a b = false) (h2 : strictVersionLt b c = false) :
    strictVersionLt a c = false :=
  verFieldsLt_negtrans h1 h2

/-! ## Fold lemmas for the resolver -/

theorem gLastBy_isSome {p : Pack → Bool} {packs : List Pack} {acc : Option Pack}
    (h : acc.isSome = true) : (gLastBy p packs acc).isSome = true := by
  induction packs generalizing acc with
  | nil => exact h
  | cons x rest ih =>
    unfold gLastBy
    by_cases hp : p x = true
    · rw [if_pos hp]
      exact ih rfl
    · rw [if_neg hp]
      exact ih h

theorem gLastBy_none_iff {p : Pack → Bool} {packs : List Pack} :
    gLastBy p packs none = none ↔ ∀ x ∈ packs, p x = false := by
  induction packs with
  | nil => simp [gLastBy]
  | cons x rest ih =>
    unfold gLastBy
    by_cases hp : p x = true
    · rw [if_pos hp]
      constructor
      · intro h
        have : (gLastBy p rest (some x)).isSome = true := gLastBy_isSome rfl
        rw [h] at this
        simp at this
      · intro h
        exact absurd (h x (by simp)) (by simp [hp])
    · rw [if_neg hp]
      rw [ih]
      constructor
      · intro h y hy
        rcases List.mem_cons.mp hy with rfl | hy
        · simpa using hp
        · exact h y hy
      · intro h y hy
        exact h y (List.mem_cons_of_mem _ hy)

theorem gLastBy_acc_cases {p : Pack → Bool} {packs : List Pack}
    {acc : Option Pack} {y : Pack} (h : gLastBy p packs acc = some y) :
    (y ∈ packs ∧ p y = true) ∨ acc = some y := by
  induction packs generalizing acc with
  | nil => exact Or.inr h
  | cons x rest ih =>
    unfold gLastBy at h
    rcases ih h with ⟨hm, hp⟩ | hacc
    · exact Or.inl ⟨List.mem_cons_of_mem _ hm, hp⟩
    · by_cases hp : p x = true
      · rw [if_pos hp] at hacc
        cases hacc
        exact Or.inl ⟨by simp, hp⟩
      · rw [if_neg hp] at hacc
        exact Or.inr hacc

theorem gMax_isSome {packs : List Pack} {acc : Option Pack}
    (h : acc.isSome = true) : (gMax packs acc).isSome = true := by
  induction packs generalizing acc with
  | nil => exact h
  | cons x rest ih =>
    cases acc with
    | none => simp at h
    | some l =>
      unfold gMax
      by_cases hp : (x.is_disabled && x.is_from_cnr) = true
      · rw [if_pos hp]
        by_cases hlt : strictVersionLt l.version x.version = true
        · rw [if_pos hlt]
          exact ih rfl
        · rw [if_neg hlt]
          exact ih rfl
      · rw [if_neg hp]
        exact ih rfl

theorem gMax_none_iff {packs : List Pack} :
    gMax packs none = none ↔
      ∀ x ∈ packs, (x.is_disabled && x.is_from_cnr) = false := by
  induction packs with
  | nil => simp [gMax]
  | cons x rest ih =>
    unfold gMax
    by_cases hp : (x.is_disabled && x.is_from_cnr) = true
    · rw [if_pos hp]
      constructor
      · intro h
        have : (gMax rest (some x)).isSome = true := gMax_isSome rfl
        rw [h] at this
        simp at this
      · intro h
        exact absurd (h x (by simp)) (by simp [hp])
    · rw [if_neg hp]
      rw [ih]
      constructor
      · intro h y hy
        rcases List.mem_cons.mp hy with rfl | hy
        · simpa using hp
        · exact h y hy
      · intro h y hy
        exact h y (List.mem_cons_of_mem _ hy)

theorem gMax_acc_cases {packs : List Pack} {acc : Option Pack} {y : Pack}
    (h : gMax packs acc = some y) :
    (y ∈ packs ∧ y.is_disabled = true ∧ y.is_from_cnr = true) ∨ acc = some y := by
  induction packs generalizing acc with
  | nil => exact Or.inr h
  | cons x rest ih =>
    have hflags : (x.is_disabled && x.is_from_cnr) = true →
        x.is_disabled = true ∧ x.is_from_cnr = true := fun hp => by simpa using hp
    cases acc with
    | none =>
      unfold gMax at h
      by_cases hp : (x.is_disabled && x.is_from_cnr) = true
      · rw [if_pos hp] at h
        rcases ih h with ⟨hm, hd, hc⟩ | hacc
        · exact Or.inl ⟨List.mem_cons_of_mem _ hm, hd, hc⟩
        · cases hacc
          exact Or.inl ⟨by simp, (hflags hp).1, (hflags hp).2⟩
      · rw [if_neg hp] at h
        rcases ih h with ⟨hm, hd, hc⟩ | hacc
        · exact Or.inl ⟨List.mem_cons_of_mem _ hm, hd, hc⟩
        · exact Or.inr hacc
    | some l =>
      unfold gMax at h
      by_cases hp : (x.is_disabled && x.is_from_cnr) = true
      · rw [if_pos hp] at h
        by_cases hlt : strictVersionLt l.version x.version = true
        · rw [if_pos hlt] at h
          rcases ih h with ⟨hm, hd, hc⟩ | hacc
          · exact Or.inl ⟨List.mem_cons_of_mem _ hm, hd, hc⟩
          · cases hacc
            exact Or.inl ⟨by simp, (hflags hp).1, (hflags hp).2⟩
        · rw [if_neg hlt] at h
          rcases ih h with ⟨hm, hd, hc⟩ | hacc
          · exact Or.inl ⟨List.mem_cons_of_mem _ hm, hd, hc⟩
          · exact Or.inr hacc
      · rw [if_neg hp] at h
        rcases ih h with ⟨hm, hd, hc⟩ | hacc
        · exact Or.inl ⟨List.mem_cons_of_mem _ hm, hd, hc⟩
        · exact Or.inr hacc

/-- The result of the max-fold is never strictly below the accumulator. -/
theorem gMax_ge_acc {packs : List Pack} {a y : Pack}
    (h : gMax packs (some a) = some y) :
    strictVersionLt y.version a.version = false := by
  induction packs generalizing a with
  | nil =>
    cases h
    exact strictVersionLt_irrefl _
  | cons x rest ih =>
    unfold gMax at h
    by_cases hp : (x.is_disabled && x.is_from_cnr) = true
    · rw [if_pos hp] at h
      by_cases hlt : strictVersionLt a.version x.version = true
      · rw [if_pos hlt] at h
        have hyx := ih h
        by_cases hya : strictVersionLt y.version a.version = true
        · have htr : strictVersionLt y.version x.version = true :=
            verFieldsLt_trans hya hlt
          rw [htr] at hyx
          simp at hyx
        · simpa using hya
      · rw [if_neg hlt] at h
        exact ih h
    · rw [if_neg hp] at h
      exact ih h

/-- The result of the max-fold is never strictly below any qualifying
member of the list. -/
theorem gMax_max {packs : List Pack} {acc : Option Pack} {y : Pack}
    (h : gMax packs acc = some y) :
    ∀ x ∈ packs, (x.is_disabled && x.is_from_cnr) = true →
      strictVersionLt y.version x.version = false := by
  induction packs generalizing acc with
  | nil => simp
  | cons x rest ih =>
    intro x' hx' hflags
    rcases List.mem_cons.mp hx' with rfl | hx'
    · cases acc with
      | none =>
        unfold gMax at h
        rw [if_pos hflags] at h
        exact gMax_ge_acc h
      | some l =>
        unfold gMax at h
        rw [if_pos hflags] at h
        by_cases hlt : strictVersionLt l.version x'.version = true
        · rw [if_pos hlt] at h
          exact gMax_ge_acc h
        · rw [if_neg hlt] at h
          have hyl := gMax_ge_acc h
          simp only [Bool.not_eq_true] at hlt
          exact strictVersionLt_negtrans hyl hlt
    · cases acc with
      | none =>
        unfold gMax at h
        by_cases hp : (x.is_disabled && x.is_from_cnr) = true
        · rw [if_pos hp] at h
          exact ih h x' hx' hflags
        · rw [if_neg hp] at h
          exact ih h x' hx' hflags
      | some l =>
        unfold gMax at h
        by_cases hp : (x.is_disabled && x.is_from_cnr) = true
        · rw [if_pos hp] at h
          by_cases hlt : strictVersionLt l.version x.version = true
          · rw [if_pos hlt] at h
            exact ih h x' hx' hflags
          · rw [if_neg hlt] at h
            exact ih h x' hx' hflags
        · rw [if_neg hp] at h
          exact ih h x' hx' hflags

/-! ## Loop characterizations for the resolver -/

/-- A pack of unknown kind is neither nightly nor a release. -/
theorem unknown_not_nightly {x : Pack} (h : x.is_unknown = true) :
    x.is_nightly = false := by
  unfold Pack.is_unknown at h
  unfold Pack.is_nightly
  have : x.version = "unknown" := by simpa using h
  rw [this]
  decide

theorem unknown_not_cnr {x : Pack} (h : x.is_unknown = true) :
    x.is_from_cnr = false := by
  unfold Pack.is_from_cnr
  simp [h]

theorem nightly_not_cnr {x : Pack} (h : x.is_nightly = true) :
    x.is_from_cnr = false := by
  unfold Pack.is_from_cnr
  simp [h]

theorem cnr_not_unknown {x : Pack} (h : x.is_from_cnr = true) :
    x.is_unknown = false := by
  unfold Pack.is_from_cnr at h
  simp only [Bool.and_eq_true, decide_eq_true_eq, Bool.not_eq_true] at h
  exact h.1

theorem cnr_not_nightly {x : Pack} (h : x.is_from_cnr = true) :
    x.is_nightly = false := by
  unfold Pack.is_from_cnr at h
  simp only [Bool.and_eq_true, decide_eq_true_eq, Bool.not_eq_true] at h
  exact h.2

theorem gMax_cons_neg {x : Pack} {rest : List Pack} (acc : Option Pack)
    (h : (x.is_disabled && x.is_from_cnr) = false) :
    gMax (x :: rest) acc = gMax rest acc := by
  cases acc with
  | none => simp [gMax, h]
  | some l => simp [gMax, h]

theorem gMax_cons_pos_none {x : Pack} {rest : List Pack}
    (h : (x.is_disabled && x.is_from_cnr) = true) :
    gMax (x :: rest) none = gMax rest (some x) := by
  simp [gMax, h]

theorem gMax_cons_pos_some {x l : Pack} {rest : List Pack}
    (h : (x.is_disabled && x.is_from_cnr) = true) :
    gMax (x :: rest) (some l) =
      gMax rest (if strictVersionLt l.version x.version = true
                 then some x else some l) := by
  by_cases hlt : strictVersionLt l.version x.version = true
  · simp [gMax, h, hlt]
  · simp [gMax, h, hlt]

/-- `get_inactive_pack`'s loop with an absent version spec: the highest
disabled release, else the last disabled nightly, else the last disabled
unknown. -/
theorem giLoop_none_char (packs : List Pack) (l n u : Option Pack) :
    giLoop none packs l n u =
      match gMax packs l with
      | some y => some y
      | none =>
        match gLastBy (fun x => x.is_disabled && x.is_nightly) packs n with
        | some y => some y
        | none => gLastBy (fun x => x.is_disabled && x.is_unknown) packs u := by
  induction packs generalizing l n u with
  | nil =>
    cases l with
    | some a => simp [giLoop, gMax, gLastBy]
    | none =>
      cases n with
      | some b => simp [giLoop, gMax, gLastBy]
      | none => simp [giLoop, gMax, gLastBy]
  | cons x rest ih =>
    unfold giLoop gLastBy
    by_cases hd : x.is_disabled = true
    · by_cases hu : x.is_unknown = true
      · have hn := unknown_not_nightly hu
        have hc := unknown_not_cnr hu
        have hflag : (x.is_disabled && x.is_from_cnr) = false := by simp [hc]
        rw [gMax_cons_neg _ hflag]
        simp only [hd, hu, hn, hc, if_true, if_false, Bool.and_false,
          Bool.and_true, Bool.false_eq_true, Bool.true_and, Bool.false_and]
        simp only [show (none : Option String) = some "unknown" ↔ False by simp,
          if_false]
        exact ih l n (some x)
      · by_cases hn : x.is_nightly = true
        · have hc := nightly_not_cnr hn
          have hflag : (x.is_disabled && x.is_from_cnr) = false := by simp [hc]
          rw [gMax_cons_neg _ hflag]
          simp only [hd, hu, hn, hc, Bool.and_false, Bool.and_true,
            Bool.false_eq_true, if_true, if_false]
          simp only [show (none : Option String) = some "nightly" ↔ False by simp,
            if_false]
          exact ih l (some x) u
        · have hc : x.is_from_cnr = true := by
            unfold Pack.is_from_cnr
            simp only [Bool.not_eq_true] at hu hn
            simp [hu, hn]
          have hflag : (x.is_disabled && x.is_from_cnr) = true := by
            simp only [Bool.and_eq_true]
            exact And.intro hd hc
          simp only [hd, hu, hn, hc, Bool.and_true, Bool.and_false,
            Bool.false_eq_true, if_true, if_false]
          simp only [show ∀ v : String, (some v = none) ↔ False by simp, if_false]
          cases l with
          | none =>
            rw [gMax_cons_pos_none hflag]
            exact ih (some x) n u
          | some a =>
            rw [gMax_cons_pos_some hflag]
            by_cases hlt : strictVersionLt a.version x.version = true
            · rw [if_pos hlt]
              simpa [hlt] using ih (some x) n u
            · rw [if_neg hlt]
              simpa [hlt] using ih (some a) n u
    · simp only [Bool.not_eq_true] at hd
      have hflag : (x.is_disabled && x.is_from_cnr) = false := by simp [hd]
      rw [gMax_cons_neg _ hflag]
      simp only [hd, Bool.false_eq_true, if_false, Bool.false_and]
      exact ih l n u

/-- `resolve_unspecified_version`'s inactive loop, under the assumption
that every listed instance is disabled: the highest release's version,
else the literal `nightly` when any non-release instance exists. -/
theorem ruvInactive_char (packs : List Pack) (l n : Option Pack)
    (hdis : ∀ pk ∈ packs, pk.is_disabled = true) :
    ruvInactive packs l n =
      match gMax packs l with
      | some y => some y.version
      | none =>
        if (gLastBy (fun x => x.is_disabled && !x.is_from_cnr) packs n).isSome
        then some "nightly" else none := by
  induction packs generalizing l n with
  | nil =>
    cases l with
    | some a => simp [ruvInactive, gMax, gLastBy]
    | none => simp [ruvInactive, gMax, gLastBy]
  | cons x rest ih =>
    have hdx := hdis x (by simp)
    have hdrest : ∀ pk ∈ rest, pk.is_disabled = true := fun pk hpk =>
      hdis pk (List.mem_cons_of_mem _ hpk)
    have hdx' : x.disabled = true := hdx
    have hen : x.is_enabled = false := by
      unfold Pack.is_enabled
      simp [hdx']
    unfold ruvInactive gLastBy
    by_cases hc : x.is_from_cnr = true
    · have hflag : (x.is_disabled && x.is_from_cnr) = true := by
        simp only [Bool.and_eq_true]
        exact And.intro hdx hc
      simp only [hen, Bool.false_eq_true, if_false, hc, hdx, Bool.and_true,
        Bool.not_true, Bool.and_false, if_true]
      cases l with
      | none =>
        rw [gMax_cons_pos_none hflag]
        exact ih (some x) n hdrest
      | some a =>
        rw [gMax_cons_pos_some hflag]
        by_cases hlt : strictVersionLt a.version x.version = true
        · rw [if_pos hlt]
          simpa [hlt] using ih (some x) n hdrest
        · rw [if_neg hlt]
          simpa [hlt] using ih (some a) n hdrest
    · simp only [Bool.not_eq_true] at hc
      have hflag : (x.is_disabled && x.is_from_cnr) = false := by simp [hc]
      rw [gMax_cons_neg _ hflag]
      simp only [hen, Bool.false_eq_true, if_false, hc, hdx, Bool.and_true,
        Bool.not_false, Bool.and_false, if_true]
      exact ih l (some x) hdrest

/-- Closed witness for the amended C7: both skip branches at concrete
states. -/
theorem c7_amended_witness :
    unified_disable env0 (mkMgr []) "pack-b" =
      some (Res.skipMsg "Not installed", mkMgr []) ∧
    unified_disable env0 (mkMgr fsOneDisabled) "foo" =
      some (Res.skipMsg "Already disabled", mkMgr fsOneDisabled) := by
  constructor
  · exact (c7_amended env0 [] "pack-b").1 rfl
  · exact (c7_amended env0 fsOneDisabled "foo").2 (by decide) (by decide)

/-- C4: resolving an absent version spec in inactive scope returns the
highest release version among the disabled instances, else nightly, else
the unknown fallback, and an unknown instance is selected only when no
disabled release or nightly instance exists; when the highest disabled
release exists, both `get_inactive_pack` and
`resolve_unspecified_version` report it. -/
theorem c4 (env : Env) (idx : Index) (packname : String)
    (hurl : is_url_like packname = false)
    (hdis : ∀ pk ∈ get_packages_by_name_or_url env idx packname,
      pk.is_disabled = true) :
    (∀ y, gMax (get_packages_by_name_or_url env idx packname) none = some y →
      get_inactive_pack env idx packname none = some y ∧
      resolve_unspecified_version env idx packname GuessMode.inactive =
        some y.version ∧
      y ∈ get_packages_by_name_or_url env idx packname ∧
      y.is_disabled = true ∧ y.is_from_cnr = true ∧
      (∀ x ∈ get_packages_by_name_or_url env idx packname,
        (x.is_disabled && x.is_from_cnr) = true →
          strictVersionLt y.version x.version = false)) ∧
    (gMax (get_packages_by_name_or_url env idx packname) none = none →
      ∀ y, gLastBy (fun x => x.is_disabled && x.is_nightly)
          (get_packages_by_name_or_url env idx packname) none = some y →
        get_inactive_pack env idx packname none = some y ∧
        resolve_unspecified_version env idx packname GuessMode.inactive =
          some "nightly") ∧
    (gMax (get_packages_by_name_or_url env idx packname) none = none →
      gLastBy (fun x => x.is_disabled && x.is_nightly)
        (get_packages_by_name_or_url env idx packname) none = none →
      get_inactive_pack env idx packname none =
        gLastBy (fun x => x.is_disabled && x.is_unknown)
          (get_packages_by_name_or_url env idx packname) none) ∧
    (∀ y, get_inactive_pack env idx packname none = some y →
      y.is_unknown = true →
      ∀ x ∈ get_packages_by_name_or_url env idx packname,
        (x.is_disabled && x.is_from_cnr) = false ∧
        (x.is_disabled && x.is_nightly) = false) := by
  have hchar :=
    giLoop_none_char (get_packages_by_name_or_url env idx packname) none none
      none
  have hruv :=
    ruvInactive_char (get_packages_by_name_or_url env idx packname) none none
      hdis
  have hres : resolve_unspecified_version env idx packname GuessMode.inactive =
      ruvInactive (get_packages_by_name_or_url env idx packname) none none := by
    unfold resolve_unspecified_version
    rw [hurl]
    rfl
  refine ⟨?_, ?_, ?_, ?_⟩
  · intro y hy
    have hcases := gMax_acc_cases hy
    rcases hcases with ⟨hmem, hd, hc⟩ | hacc
    · refine ⟨?_, ?_, hmem, hd, hc, gMax_max hy⟩
      · unfold get_inactive_pack
        rw [hchar, hy]
      · rw [hres, hruv, hy]
    · simp at hacc
  · intro hg y hn
    constructor
    · unfold get_inactive_pack
      rw [hchar, hg, hn]
    · rw [hres, hruv, hg]
      rcases gLastBy_acc_cases hn with ⟨hmem, hflags⟩ | hacc
      · have hflags' : y.is_disabled = true ∧ y.is_nightly = true := by
          simpa using hflags
        have hcne : (gLastBy (fun x => x.is_disabled && !x.is_from_cnr)
            (get_packages_by_name_or_url env idx packname) none) ≠ none := by
          intro hno
          have hall := gLastBy_none_iff.mp hno
          have := hall y hmem
          rw [hflags'.1, nightly_not_cnr hflags'.2] at this
          simp at this
        have hsome : (gLastBy (fun x => x.is_disabled && !x.is_from_cnr)
            (get_packages_by_name_or_url env idx packname) none).isSome =
              true := by
          cases hgl : gLastBy (fun x => x.is_disabled && !x.is_from_cnr)
              (get_packages_by_name_or_url env idx packname) none with
          | none => exact absurd hgl hcne
          | some z => rfl
        rw [hsome]
        rfl
      · simp at hacc
  · intro hg hn
    unfold get_inactive_pack
    rw [hchar, hg, hn]
  · intro y hy hu x hx
    unfold get_inactive_pack at hy
    rw [hchar] at hy
    cases hgm : gMax (get_packages_by_name_or_url env idx packname) none with
    | some z =>
      rw [hgm] at hy
      rcases gMax_acc_cases hgm with ⟨hmem, hd, hc⟩ | hacc
      · cases hy
        rw [cnr_not_unknown hc] at hu
        simp at hu
      · simp at hacc
    | none =>
      rw [hgm] at hy
      cases hgn : gLastBy (fun x => x.is_disabled && x.is_nightly)
          (get_packages_by_name_or_url env idx packname) none with
      | some z =>
        rw [hgn] at hy
        rcases gLastBy_acc_cases hgn with ⟨hmem, hflags⟩ | hacc
        · cases hy
          have hflags' : y.is_disabled = true ∧ y.is_nightly = true := by
            simpa using hflags
          rw [unknown_not_nightly hu] at hflags'
          simp at hflags'
        · simp at hacc
      | none =>
        exact ⟨(gMax_none_iff.mp hgm) x hx, (gLastBy_none_iff.mp hgn) x hx⟩

/-- Closed witness for C4 at the spec scenario: disabled releases
`1.0.0` and `1.0.2` and a disabled nightly resolve to `1.0.2`. -/
theorem c4_witness :
    get_inactive_pack envC4 (buildIndex fsResolver) "foo" none = some pk102 ∧
    resolve_unspecified_version envC4 (buildIndex fsResolver) "foo"
      GuessMode.inactive = some "1.0.2" := by
  have h := (c4 envC4 (buildIndex fsResolver) "foo" (by decide)
    (by decide)).1 pk102 (by decide)
  exact ⟨h.1, h.2.1⟩

/-! ## C9 — uninstall totality -/

theorem foldRemove_mem {packs : List Pack} {fs : FS} {e : Path × PackDir} :
    e ∈ packs.foldl (fun acc q => fsRemove acc q.fullpath) fs ↔
      e ∈ fs ∧ ∀ q ∈ packs, e.1 ≠ q.fullpath := by
  induction packs generalizing fs with
  | nil => simp
  | cons x rest ih =>
    simp only [List.foldl_cons]
    rw [ih, mem_fsRemove]
    constructor
    · rintro ⟨⟨he, hne⟩, hall⟩
      refine ⟨he, ?_⟩
      intro q hq
      rcases List.mem_cons.mp hq with rfl | hq
      · exact hne
      · exact hall q hq
    · rintro ⟨he, hall⟩
      exact ⟨⟨he, hall x (by simp)⟩,
        fun q hq => hall q (List.mem_cons_of_mem _ hq)⟩

theorem foldRemove_get_notmem {packs : List Pack} {fs : FS} {p : Path}
    (h : ∀ q ∈ packs, p ≠ q.fullpath) :
    fsGet (packs.foldl (fun acc q => fsRemove acc q.fullpath) fs) p =
      fsGet fs p := by
  induction packs generalizing fs with
  | nil => rfl
  | cons x rest ih =>
    simp only [List.foldl_cons]
    rw [ih (fun q hq => h q (List.mem_cons_of_mem _ hq))]
    exact fsGet_fsRemove_ne (h x (by simp))

theorem foldRemove_get_mem {packs : List Pack} {fs : FS} {pk : Pack}
    (h : pk ∈ packs) :
    fsGet (packs.foldl (fun acc q => fsRemove acc q.fullpath) fs)
      pk.fullpath = none := by
  rw [fsGet_eq_none_iff]
  intro e he
  exact (foldRemove_mem.mp he).2 pk h

/-- Instances surviving the uninstall fold were instances of the original
state whose directory was not among the removed paths. -/
theorem mem_instancesOf_foldRemove {packs : List Pack} {fs : FS} {pk' : Pack}
    (h : pk' ∈ instancesOf (packs.foldl (fun acc q => fsRemove acc q.fullpath) fs)) :
    pk' ∈ instancesOf fs ∧ ∀ q ∈ packs, pk'.fullpath ≠ q.fullpath := by
  unfold instancesOf scanEntries at h ⊢
  obtain ⟨e, he, rfl⟩ := List.mem_map.mp h
  rw [from_fullpath_fullpath]
  rcases List.mem_append.mp he with h1 | h1
  · obtain ⟨hef', hp⟩ := List.mem_filter.mp h1
    obtain ⟨hef, hne⟩ := foldRemove_mem.mp hef'
    refine ⟨List.mem_map_of_mem _ (List.mem_append_left _
      (List.mem_filter.mpr ⟨hef, hp⟩)), hne⟩
  · obtain ⟨hef', hp⟩ := List.mem_filter.mp h1
    obtain ⟨hef, hne⟩ := foldRemove_mem.mp hef'
    refine ⟨List.mem_map_of_mem _ (List.mem_append_right _
      (List.mem_filter.mpr ⟨hef, hp⟩)), hne⟩

/-- Every instance the fresh index files under a matching key is in the
merged set the uninstall deletes. -/
theorem direct_sub_targets {env : Env} {fs : FS} {packname : String}
    {pk : Pack} (hmem : pk ∈ instancesOf fs)
    (hpred : idxPred packname pk = true) :
    pk ∈ uninstallTargets env fs packname := by
  have hdir : pk ∈ lookupPacks (buildIndex fs).byId packname := by
    rw [lookupPacks_buildIndex]
    exact List.mem_filter.mpr ⟨hmem, hpred⟩
  unfold uninstallTargets get_packages_by_name_or_url
  by_cases hu : is_url_like packname = true
  · rw [if_pos hu]
    exact hdir
  · rw [if_neg hu]
    cases hml : mergedLink env (buildIndex fs) packname with
    | none => exact hdir
    | some u => exact List.mem_append_left _ hdir

/-- After the uninstall fold, any index key whose old occupants were all
uninstall targets is empty in the rebuilt index. -/
theorem lookup_after_uninstall {env : Env} {fs : FS} {packname k : String}
    (hsub : ∀ pk ∈ lookupPacks (buildIndex fs).byId k,
      pk ∈ uninstallTargets env fs packname) :
    lookupPacks (buildIndex (uninstallResultFS env fs packname)).byId k =
      [] := by
  rw [lookupPacks_buildIndex]
  rw [List.eq_nil_iff_forall_not_mem]
  intro pk' hpk'
  obtain ⟨hmem, hpred⟩ := List.mem_filter.mp hpk'
  obtain ⟨hold, hne⟩ := mem_instancesOf_foldRemove hmem
  have hself : pk' ∈ lookupPacks (buildIndex fs).byId k := by
    rw [lookupPacks_buildIndex]
    exact List.mem_filter.mpr ⟨hold, hpred⟩
  exact hne pk' (hsub pk' hself) rfl

/-- C9: `unified_uninstall` deletes the active instance and every inactive
instance the merged lookup matches, with no per-version selection: every
instance the fresh index files under the id is a target; targets are gone
afterwards and nothing else is touched; when nothing matches it reports
the not-installed no-op without deleting anything; and when the merged
repository link is unchanged by the deletion, the post-state lookup of
the id is empty. -/
theorem c9 (env : Env) (fs : FS) (packname : String) :
    (uninstallTargets env fs packname = [] →
      unified_uninstall env (mkMgr fs) packname =
        some (Res.skipMsg "Not installed", mkMgr fs)) ∧
    (uninstallTargets env fs packname ≠ [] →
      unified_uninstall env (mkMgr fs) packname =
        some ({ action := "uninstall",
                itemCount := (uninstallTargets env fs packname).length },
              { fs := uninstallResultFS env fs packname,
                idx := buildIndex fs })) ∧
    (∀ pk ∈ instancesOf fs, idxPred packname pk = true →
      pk ∈ uninstallTargets env fs packname) ∧
    (∀ pk ∈ uninstallTargets env fs packname,
      fsGet (uninstallResultFS env fs packname) pk.fullpath = none) ∧
    (∀ p : Path, (∀ pk ∈ uninstallTargets env fs packname, p ≠ pk.fullpath) →
      fsGet (uninstallResultFS env fs packname) p = fsGet fs p) ∧
    (mergedLink env (buildIndex (uninstallResultFS env fs packname))
        packname = mergedLink env (buildIndex fs) packname →
      get_packages_by_name_or_url env
        (buildIndex (uninstallResultFS env fs packname)) packname = []) := by
  have hT : get_packages_by_name_or_url env (mkMgr fs).idx packname =
      uninstallTargets env fs packname := rfl
  refine ⟨?_, ?_, ?_, ?_, ?_, ?_⟩
  · intro hemp
    unfold unified_uninstall
    rw [hT, hemp]
    rfl
  · intro hne
    unfold unified_uninstall
    rw [hT]
    have hie : (uninstallTargets env fs packname).isEmpty = false := by
      cases hc : uninstallTargets env fs packname with
      | nil => exact absurd hc hne
      | cons a l => rfl
    simp only [hie, Bool.false_eq_true, if_false]
    rfl
  · intro pk hmem hpred
    exact direct_sub_targets hmem hpred
  · intro pk hpk
    unfold uninstallResultFS
    exact foldRemove_get_mem hpk
  · intro p hp
    unfold uninstallResultFS
    exact foldRemove_get_notmem hp
  · intro hstable
    have hdir : ∀ pk ∈ lookupPacks (buildIndex fs).byId packname,
        pk ∈ uninstallTargets env fs packname := by
      intro pk hpk
      rw [lookupPacks_buildIndex] at hpk
      obtain ⟨hmem, hpred⟩ := List.mem_filter.mp hpk
      exact direct_sub_targets hmem hpred
    have hdir' := lookup_after_uninstall hdir
    unfold get_packages_by_name_or_url
    by_cases hu : is_url_like packname = true
    · rw [if_pos hu]
      exact hdir'
    · rw [if_neg hu]
      cases hml : mergedLink env
          (buildIndex (uninstallResultFS env fs packname)) packname with
      | none => exact hdir'
      | some u =>
        rw [hml] at hstable
        have hmerged : ∀ pk ∈ lookupPacks (buildIndex fs).byId (compact_url u),
            pk ∈ uninstallTargets env fs packname := by
          intro pk hpk
          unfold uninstallTargets get_packages_by_name_or_url
          rw [if_neg hu, ← hstable]
          exact List.mem_append_right _ hpk
        have hmer' := lookup_after_uninstall hmerged
        have hgoal : lookupPacks
              (buildIndex (uninstallResultFS env fs packname)).byId packname ++
            lookupPacks (buildIndex (uninstallResultFS env fs packname)).byId
              (compact_url u) = ([] : List Pack) := by
          rw [hdir', hmer']
          rfl
        exact hgoal

/-- The spec scenario for uninstall totality: an active release, a
disabled release and a disabled nightly of the same project. -/
def fsC9 : FS :=
  [(⟨Loc.act, "foo"⟩, dFooRelease),
   (⟨Loc.dis, "foo@1_0_2"⟩, dFooRelease102),
   (⟨Loc.dis, "foo@nightly"⟩, dNightly)]

/-- Closed witness for C9: uninstalling `foo` from the three-instance
state removes all three directories and the post-state lookup is empty. -/
theorem c9_witness :
    unified_uninstall envC4 (mkMgr fsC9) "foo" =
      some ({ action := "uninstall",
              itemCount := (uninstallTargets envC4 fsC9 "foo").length },
            { fs := uninstallResultFS envC4 fsC9 "foo",
              idx := buildIndex fsC9 }) ∧
    get_packages_by_name_or_url envC4
      (buildIndex (uninstallResultFS envC4 fsC9 "foo")) "foo" = [] := by
  have h := c9 envC4 fsC9 "foo"
  exact ⟨h.2.1 (by decide), h.2.2.2.2.2 (by decide)⟩

/-! ## C3 — enable-then-disable round trip -/

theorem fsRemove_eq_self {fs : FS} {p : Path} (h : fsGet fs p = none) :
    fsRemove fs p = fs := by
  rw [fsGet_eq_none_iff] at h
  unfold fsRemove
  rw [List.filter_eq_self]
  intro e he
  simp [h e he]

/-- Removing a present entry and re-appending it permutes the state. -/
theorem perm_remove_add {fs : FS} {p : Path} {d : PackDir}
    (hnd : pathsNodup fs) (h : fsGet fs p = some d) :
    (fsAdd (fsRemove fs p) p d).Perm fs := by
  induction fs with
  | nil => simp [fsGet] at h
  | cons e fs ih =>
    have hnd2 := (List.nodup_cons.mp hnd)
    by_cases hp : e.1 = p
    · have hed : e = (p, d) := by
        unfold fsGet at h
        rw [List.find?_cons_of_pos _ (by simp [hp])] at h
        simp only [Option.map_some'] at h
        obtain ⟨p1, d1⟩ := e
        cases hp
        cases h
        rfl
      have hrest : fsGet fs p = none := by
        rw [fsGet_eq_none_iff]
        intro x hx hxp
        apply hnd2.1
        show e.1 ∈ List.map (fun y => y.1) fs
        rw [hp, ← hxp]
        exact List.mem_map_of_mem _ hx
      have hrem : fsRemove (e :: fs) p = fs := by
        unfold fsRemove
        rw [List.filter_cons_of_neg (by simp [hp])]
        exact fsRemove_eq_self hrest
      rw [hrem, hed]
      exact List.perm_append_singleton _ _
    · have hget : fsGet fs p = some d := by
        unfold fsGet at h ⊢
        rw [List.find?_cons_of_neg _ (by simp [hp])] at h
        exact h
      have hrem : fsRemove (e :: fs) p = e :: fsRemove fs p := by
        unfold fsRemove
        rw [List.filter_cons_of_pos (by simp [hp])]
      rw [hrem]
      show (e :: (fsRemove fs p ++ [(p, d)])).Perm (e :: fs)
      exact (ih hnd2.2 hget).cons e

/-- C3: starting from a state where `(id, v)` is disabled and no instance
of the id is enabled, `enable(id, v)` moves the inactive slot to the
active root under the metadata name, and `disable(id)` (after a reload)
moves it back to the same inactive slot; the final state is a permutation
of the original, so the inactive subtree holds the same directories under
the same names. -/
theorem c3 (env : Env) (fs : FS) (packname v oname : String) (ipk : Pack)
    (d0 : PackDir)
    (hnd : pathsNodup fs)
    (h1 : is_enabled env (buildIndex fs) packname (some v) = false)
    (h2 : is_disabled env (buildIndex fs) packname (some v) = true)
    (h3 : get_inactive_pack env (buildIndex fs) packname (some v) = some ipk)
    (h4 : fsGet fs ipk.fullpath = some d0)
    (honame : oname = (d0.meta.map (fun mt => sTrim mt.name)).getD packname)
    (hfree : fsGet fs ⟨Loc.act, oname⟩ = none)
    (hne : ipk.fullpath ≠ ⟨Loc.act, oname⟩)
    (hact : (get_packages_by_name_or_url env
          (buildIndex (fsAdd (fsRemove fs ipk.fullpath) ⟨Loc.act, oname⟩ d0))
          packname).reverse.find? (·.is_enabled) =
        some (from_fullpath ⟨Loc.act, oname⟩ d0))
    (hslot : disTargetPath (fsAdd (fsRemove fs ipk.fullpath) ⟨Loc.act, oname⟩ d0)
        packname (from_fullpath ⟨Loc.act, oname⟩ d0) = ipk.fullpath) :
    unified_enable env (mkMgr fs) packname (some v) =
      some ({ action := "enable", target_path := some ⟨Loc.act, oname⟩ },
        { fs := fsAdd (fsRemove fs ipk.fullpath) ⟨Loc.act, oname⟩ d0,
          idx := buildIndex fs }) ∧
    unified_disable env
        (mkMgr (fsAdd (fsRemove fs ipk.fullpath) ⟨Loc.act, oname⟩ d0)) packname =
      some ({ action := "disable", itemCount := 1 },
        { fs := fsAdd (fsRemove fs ipk.fullpath) ipk.fullpath d0,
          idx := buildIndex
            (fsAdd (fsRemove fs ipk.fullpath) ⟨Loc.act, oname⟩ d0) }) ∧
    (fsAdd (fsRemove fs ipk.fullpath) ipk.fullpath d0).Perm fs ∧
    ((fsAdd (fsRemove fs ipk.fullpath) ipk.fullpath d0).filter
        (fun e => decide (e.1.loc = Loc.dis))).Perm
      (fs.filter (fun e => decide (e.1.loc = Loc.dis))) := by
  have hperm : (fsAdd (fsRemove fs ipk.fullpath) ipk.fullpath d0).Perm fs :=
    perm_remove_add hnd h4
  have hg1 : fsGet (fsRemove fs ipk.fullpath) ⟨Loc.act, oname⟩ = none := by
    rw [fsGet_fsRemove_ne (Ne.symm hne)]
    exact hfree
  have hmv : fsMove fs ipk.fullpath ⟨Loc.act, oname⟩ =
      some (fsAdd (fsRemove fs ipk.fullpath) ⟨Loc.act, oname⟩ d0) := by
    unfold fsMove
    rw [h4]
    simp only [hg1, Option.isSome_none, Bool.false_eq_true, if_false]
  refine ⟨?_, ?_, hperm, hperm.filter _⟩
  · unfold unified_enable
    simp only [mkMgr, h1, Bool.false_eq_true, if_false, h2, not_true, h3, h4,
      Option.some_bind]
    cases hmeta : d0.meta with
    | none =>
      rw [hmeta] at honame
      simp only [Option.map_none', Option.getD_none] at honame
      subst honame
      simp only [hmv]
    | some mt =>
      rw [hmeta] at honame
      simp only [Option.map_some', Option.getD_some] at honame
      subst honame
      simp only [hmv]
  · have hapfp : (from_fullpath ⟨Loc.act, oname⟩ d0).fullpath =
        ⟨Loc.act, oname⟩ := from_fullpath_fullpath _ _
    have hpkne :
        (get_packages_by_name_or_url env
          (buildIndex (fsAdd (fsRemove fs ipk.fullpath) ⟨Loc.act, oname⟩ d0))
          packname).isEmpty = false := by
      have hmem := List.mem_of_find?_eq_some hact
      cases hp : get_packages_by_name_or_url env
          (buildIndex (fsAdd (fsRemove fs ipk.fullpath) ⟨Loc.act, oname⟩ d0))
          packname with
      | nil =>
        rw [hp] at hmem
        simp at hmem
      | cons a tl => rfl
    have hg2 : fsGet (fsAdd (fsRemove fs ipk.fullpath) ⟨Loc.act, oname⟩ d0)
        ipk.fullpath = none := by
      rw [fsGet_fsAdd_ne hne]
      exact fsGet_fsRemove_self fs ipk.fullpath
    have hg3 : fsGet (fsAdd (fsRemove fs ipk.fullpath) ⟨Loc.act, oname⟩ d0)
        ⟨Loc.act, oname⟩ = some d0 := fsGet_fsAdd_self hg1
    have hrem2 : fsRemove (fsAdd (fsRemove fs ipk.fullpath) ⟨Loc.act, oname⟩ d0)
        ⟨Loc.act, oname⟩ = fsRemove fs ipk.fullpath := by
      unfold fsAdd fsRemove
      rw [List.filter_append]
      have h1' : fsRemove (fsRemove fs ipk.fullpath) ⟨Loc.act, oname⟩ =
          fsRemove fs ipk.fullpath := fsRemove_eq_self hg1
      unfold fsRemove at h1'
      rw [h1']
      simp
    have hmv2 : fsMove (fsAdd (fsRemove fs ipk.fullpath) ⟨Loc.act, oname⟩ d0)
        ⟨Loc.act, oname⟩ ipk.fullpath =
        some (fsAdd (fsRemove fs ipk.fullpath) ipk.fullpath d0) := by
      unfold fsMove
      rw [hg3]
      simp only [hrem2, fsGet_fsRemove_self, Option.isSome_none,
        Bool.false_eq_true, if_false]
    unfold unified_disable
    simp only [mkMgr, hact, hpkne, Bool.false_eq_true, if_false]
    simp only [hslot, hg2, Option.isSome_none, Bool.false_eq_true, if_false,
      hapfp, hmv2]

/-- Closed witness for C3 at the one-pack state: `foo@1_0_0` is enabled
to `Foo` and disabled back into `foo@1_0_0`, restoring the state. -/
theorem c3_witness :
    unified_enable env0 (mkMgr fsOneDisabled) "foo" (some "1.0.0") =
      some ({ action := "enable", target_path := some ⟨Loc.act, "Foo"⟩ },
        { fs := fsAdd (fsRemove fsOneDisabled pkFooDis.fullpath)
            ⟨Loc.act, "Foo"⟩ dFooRelease,
          idx := buildIndex fsOneDisabled }) ∧
    unified_disable env0
        (mkMgr (fsAdd (fsRemove fsOneDisabled pkFooDis.fullpath)
          ⟨Loc.act, "Foo"⟩ dFooRelease)) "foo" =
      some ({ action := "disable", itemCount := 1 },
        { fs := fsAdd (fsRemove fsOneDisabled pkFooDis.fullpath)
            pkFooDis.fullpath dFooRelease,
          idx := buildIndex (fsAdd (fsRemove fsOneDisabled pkFooDis.fullpath)
            ⟨Loc.act, "Foo"⟩ dFooRelease) }) ∧
    (fsAdd (fsRemove fsOneDisabled pkFooDis.fullpath) pkFooDis.fullpath
        dFooRelease).Perm fsOneDisabled ∧
    ((fsAdd (fsRemove fsOneDisabled pkFooDis.fullpath) pkFooDis.fullpath
        dFooRelease).filter (fun e => decide (e.1.loc = Loc.dis))).Perm
      (fsOneDisabled.filter (fun e => decide (e.1.loc = Loc.dis))) :=
  c3 env0 fsOneDisabled "foo" "1.0.0" "Foo" pkFooDis dFooRelease
    (by unfold pathsNodup; decide) (by decide) (by decide) (by decide)
    (by decide) (by decide) (by decide) (by decide) (by decide) (by decide)

/-! ## C2 — repeated install is a no-op -/

/-- C2: when the requested id is already enabled at the requested version
(as after a successful `install(id, v)`), `install(id, v)` returns the
skip result carrying the target version — a success, not an error — and
leaves the state untouched; consequently a second identical install right
after a completed one changes nothing. -/
theorem c2 (env : Env) (fs : FS) (packname v : String)
    (hnm : hasSub (sToLower packname) "comfyui-manager" = false)
    (hat : hasSub packname "@" = false)
    (hurl : is_url_like packname = false)
    (hen : is_enabled env (buildIndex fs)
      (normalize_package_name packname) (some v) = true) :
    install_by_id env (mkMgr fs) packname (some v) false =
      some ({ action := "skip", target_version := some v }, mkMgr fs) ∧
    runOp env fs (Op.installOp packname (some v)) =
      some ({ action := "skip", target_version := some v }, fs) ∧
    (∀ (fs0 : FS) (r1 : Res),
      runOp env fs0 (Op.installOp packname (some v)) = some (r1, fs) →
      runSeq env fs0
        [Op.installOp packname (some v), Op.installOp packname (some v)] =
        some fs) := by
  have key : ∀ fuel : Nat,
      installByIdGo env (fuel + 1) (mkMgr fs) packname (some v) false =
        some ({ action := "skip", target_version := some v }, mkMgr fs) := by
    intro fuel
    unfold installByIdGo
    have hen' : is_enabled env (Mgr.reload (mkMgr fs)).idx
        (normalize_package_name packname) (some v) = true := hen
    simp only [hnm, Bool.false_eq_true, if_false, hat, false_and, hurl,
      not_false_iff, if_true, hen', if_false]
    rfl
  have h1 : install_by_id env (mkMgr fs) packname (some v) false =
      some ({ action := "skip", target_version := some v }, mkMgr fs) := key 1
  have h2 : runOp env fs (Op.installOp packname (some v)) =
      some ({ action := "skip", target_version := some v }, fs) := by
    unfold runOp
    simp only [h1]
    rfl
  refine ⟨h1, h2, ?_⟩
  intro fs0 r1 h0
  unfold runSeq
  rw [h0]
  unfold runSeq
  rw [h2]
  rfl

/-- Closed witness for C2: installing `foo@1.0.0` twice from the
one-disabled-pack state enables it once and then skips, preserving the
state. -/
theorem c2_witness :
    install_by_id env0 (mkMgr fsFooEnabled) "foo" (some "1.0.0") false =
      some ({ action := "skip", target_version := some "1.0.0" },
        mkMgr fsFooEnabled) ∧
    runSeq env0 fsOneDisabled
      [Op.installOp "foo" (some "1.0.0"), Op.installOp "foo" (some "1.0.0")] =
      some fsFooEnabled := by
  have h := c2 env0 fsFooEnabled "foo" "1.0.0" (by decide) (by decide)
    (by decide) (by decide)
  refine ⟨h.1, h.2.2 fsOneDisabled
    { action := "enable", target_path := some ⟨Loc.act, "Foo"⟩ } (by decide)⟩

/-! ## C1 — the single-active-instance invariant -/

theorem activeIdCount_sublist_le {fs gs : FS} (h : List.Sublist fs gs)
    (i : String) : activeIdCount fs i ≤ activeIdCount gs i := by
  unfold activeIdCount instancesOf scanEntries
  exact List.Sublist.length_le (List.Sublist.filter _ (List.Sublist.map _
    (List.Sublist.append (List.Sublist.filter _ h)
      (List.Sublist.filter _ h))))

theorem activeIdCount_fsRemove_le (fs : FS) (p : Path) (i : String) :
    activeIdCount (fsRemove fs p) i ≤ activeIdCount fs i := by
  unfold fsRemove
  exact activeIdCount_sublist_le (List.filter_sublist fs) i

theorem activeIdCount_foldRemove_le (packs : List Pack) (fs : FS) (i : String) :
    activeIdCount (packs.foldl (fun acc q => fsRemove acc q.fullpath) fs) i ≤
      activeIdCount fs i := by
  induction packs generalizing fs with
  | nil => exact Nat.le_refl _
  | cons x rest ih =>
    simp only [List.foldl_cons]
    exact Nat.le_trans (ih (fsRemove fs x.fullpath))
      (activeIdCount_fsRemove_le fs x.fullpath i)

/-- Appending a directory under `.disabled` never adds an enabled
instance. -/
theorem activeIdCount_fsAdd_dis (fs : FS) (p : Path) (d : PackDir)
    (h : p.loc = Loc.dis) (i : String) :
    activeIdCount (fsAdd fs p d) i = activeIdCount fs i := by
  unfold activeIdCount instancesOf scanEntries fsAdd
  rw [List.filter_append, List.filter_append]
  have hA : List.filter
      (fun e => decide (e.1.loc = Loc.act ∧ e.1.name ≠ "__pycache__"))
      [(p, d)] = [] := by
    simp [h]
  have hD : List.filter (fun e => decide (e.1.loc = Loc.dis)) [(p, d)] =
      [(p, d)] := by
    simp [h]
  rw [hA, hD, List.append_nil]
  rw [← List.append_assoc, List.map_append, List.filter_append,
    List.length_append]
  have hdis := from_fullpath_disabled_of_dis d h
  have hP : List.filter (fun pk => pk.id = i && pk.is_enabled)
      (List.map (fun e => from_fullpath e.1 e.2) [(p, d)]) = [] := by
    simp only [List.map_cons, List.map_nil]
    have hen : (from_fullpath p d).is_enabled = false := by
      unfold Pack.is_enabled
      simp [hdis]
    rw [List.filter_cons_of_neg (by simp [hen])]
    rfl
  rw [hP]
  simp

theorem fsMove_result {fs : FS} {src dst : Path} {fs2 : FS}
    (h : fsMove fs src dst = some fs2) :
    fs2 = fsRemove fs src ∨ ∃ d, fs2 = fsAdd (fsRemove fs src) dst d := by
  unfold fsMove at h
  cases hg : fsGet fs src with
  | none =>
    rw [hg] at h
    simp at h
  | some d =>
    rw [hg] at h
    by_cases hd : (fsGet (fsRemove fs src) dst).isSome = true
    · simp only [hd, if_true, Option.some.injEq] at h
      exact Or.inl h.symm
    · simp only [hd, Bool.false_eq_true, if_false, Option.some.injEq] at h
      exact Or.inr ⟨d, h.symm⟩

/-- C1 (counterexample): from a state with `foo@1.0.0` enabled and
`foo@2.0.0` disabled, `enable(foo, 2.0.0)` completes and leaves **two**
enabled instances of the id `foo` — the invariant is not enforced by the
enable operation. -/
theorem c1_counterexample :
    activeIdCount fsC1 "foo" = 1 ∧
    runOp env0 fsC1 (Op.enableOp "foo" (some "2.0.0")) =
      some ({ action := "enable", target_path := some ⟨Loc.act, "FooV2"⟩ },
        [(⟨Loc.act, "Foo"⟩, dFooRelease), (⟨Loc.act, "FooV2"⟩, dFooV2)]) ∧
    activeIdCount [(⟨Loc.act, "Foo"⟩, dFooRelease),
      (⟨Loc.act, "FooV2"⟩, dFooV2)] "foo" = 2 :=
  ⟨rfl, rfl, rfl⟩

/-- C1 (amended): `disable` and `uninstall` never increase the number of
enabled instances of any id (so both preserve the at-most-one-active
invariant whenever they complete), and the install flow — unlike the
enable operation — performs an implicit version switch: on the same
two-version state that broke `enable`, `install(foo, 2.0.0)` disables the
enabled `1.0.0` into `.disabled/foo@1_0_0` and enables `2.0.0`, ending
with exactly one enabled instance. -/
theorem c1_amended (env : Env) (fs : FS) (packname : String) :
    (∀ (r : Res) (mfin : Mgr),
      unified_disable env (mkMgr fs) packname = some (r, mfin) →
      ∀ i : String, activeIdCount mfin.fs i ≤ activeIdCount fs i) ∧
    (∀ (r : Res) (mfin : Mgr),
      unified_uninstall env (mkMgr fs) packname = some (r, mfin) →
      ∀ i : String, activeIdCount mfin.fs i ≤ activeIdCount fs i) ∧
    runOp envC1 fsC1 (Op.installOp "foo" (some "2.0.0")) =
      some ({ action := "switch-cnr", target_path := some ⟨Loc.act, "FooV2"⟩,
              target_version := some "2.0.0" },
        [(⟨Loc.dis, "foo@1_0_0"⟩, dFooRelease),
         (⟨Loc.act, "FooV2"⟩, dFooV2)]) ∧
    activeIdCount [(⟨Loc.dis, "foo@1_0_0"⟩, dFooRelease),
      (⟨Loc.act, "FooV2"⟩, dFooV2)] "foo" = 1 := by
  refine ⟨?_, ?_, rfl, rfl⟩
  · intro r mfin h i
    unfold unified_disable at h
    simp only [mkMgr] at h
    by_cases hie :
        (get_packages_by_name_or_url env (buildIndex fs) packname).isEmpty =
          true
    · simp only [hie, if_true, Option.some.injEq, Prod.mk.injEq] at h
      obtain ⟨-, hm⟩ := h
      subst hm
      exact Nat.le_refl _
    · simp only [hie, Bool.false_eq_true, if_false] at h
      cases hma : (get_packages_by_name_or_url env (buildIndex fs)
          packname).reverse.find? (·.is_enabled) with
      | none =>
        simp only [hma, Option.some.injEq, Prod.mk.injEq] at h
        obtain ⟨-, hm⟩ := h
        subst hm
        exact Nat.le_refl _
      | some act =>
        simp only [hma] at h
        have hloc : (disTargetPath fs packname act).loc = Loc.dis := rfl
        by_cases hocc :
            (fsGet fs (disTargetPath fs packname act)).isSome = true
        · simp only [hocc, if_true] at h
          cases hmv : fsMove (fsRemove fs (disTargetPath fs packname act))
              act.fullpath (disTargetPath fs packname act) with
          | none =>
            rw [hmv] at h
            simp at h
          | some fs2 =>
            rw [hmv] at h
            simp only [Option.some.injEq, Prod.mk.injEq] at h
            obtain ⟨-, hm⟩ := h
            subst hm
            rcases fsMove_result hmv with hfs2 | ⟨d, hfs2⟩
            · subst hfs2
              exact Nat.le_trans
                (activeIdCount_fsRemove_le _ act.fullpath i)
                (activeIdCount_fsRemove_le fs _ i)
            · subst hfs2
              rw [show activeIdCount (fsAdd (fsRemove
                  (fsRemove fs (disTargetPath fs packname act)) act.fullpath)
                  (disTargetPath fs packname act) d) i =
                  activeIdCount (fsRemove
                    (fsRemove fs (disTargetPath fs packname act))
                    act.fullpath) i from
                activeIdCount_fsAdd_dis _ _ d hloc i]
              exact Nat.le_trans
                (activeIdCount_fsRemove_le _ act.fullpath i)
                (activeIdCount_fsRemove_le fs _ i)
        · simp only [hocc, Bool.false_eq_true, if_false] at h
          cases hmv : fsMove fs act.fullpath
              (disTargetPath fs packname act) with
          | none =>
            rw [hmv] at h
            simp at h
          | some fs2 =>
            rw [hmv] at h
            simp only [Option.some.injEq, Prod.mk.injEq] at h
            obtain ⟨-, hm⟩ := h
            subst hm
            rcases fsMove_result hmv with hfs2 | ⟨d, hfs2⟩
            · subst hfs2
              exact activeIdCount_fsRemove_le fs act.fullpath i
            · subst hfs2
              rw [show activeIdCount (fsAdd (fsRemove fs act.fullpath)
                  (disTargetPath fs packname act) d) i =
                  activeIdCount (fsRemove fs act.fullpath) i from
                activeIdCount_fsAdd_dis _ _ d hloc i]
              exact activeIdCount_fsRemove_le fs act.fullpath i
  · intro r mfin h i
    unfold unified_uninstall at h
    simp only [mkMgr] at h
    by_cases hie :
        (get_packages_by_name_or_url env (buildIndex fs) packname).isEmpty =
          true
    · simp only [hie, if_true, Option.some.injEq, Prod.mk.injEq] at h
      obtain ⟨-, hm⟩ := h
      subst hm
      exact Nat.le_refl _
    · simp only [hie, Bool.false_eq_true, if_false, Option.some.injEq,
        Prod.mk.injEq] at h
      obtain ⟨-, hm⟩ := h
      subst hm
      exact activeIdCount_foldRemove_le _ fs i

/-- Closed witness for the amended C1: disabling `foo` on the two-version
state does not increase the enabled count, and the concrete install
conjuncts are read back from the theorem. -/
theorem c1_amended_witness :
    activeIdCount [(⟨Loc.dis, "foo@2_0_0"⟩, dFooV2),
        (⟨Loc.dis, "foo@1_0_0"⟩, dFooRelease)] "foo" ≤
      activeIdCount fsC1 "foo" ∧
    runOp envC1 fsC1 (Op.installOp "foo" (some "2.0.0")) =
      some ({ action := "switch-cnr", target_path := some ⟨Loc.act, "FooV2"⟩,
              target_version := some "2.0.0" },
        [(⟨Loc.dis, "foo@1_0_0"⟩, dFooRelease),
         (⟨Loc.act, "FooV2"⟩, dFooV2)]) := by
  constructor
  · exact (c1_amended env0 fsC1 "foo").1
      { action := "disable", itemCount := 1 }
      { fs := [(⟨Loc.dis, "foo@2_0_0"⟩, dFooV2),
               (⟨Loc.dis, "foo@1_0_0"⟩, dFooRelease)],
        idx := buildIndex fsC1 } (by rfl) "foo"
  · exact (c1_amended env0 fsC1 "foo").2.2.1

end CM
